import Mathlib

/-!
Verification of the KBQA query-generation subsystem of the repository
(deeppavlov/models/kbqa: utils.py, wiki_parser.py, query_generator.py).

The Python code manipulates Python strings; we embed them as lists of
characters (with wrappers taking Lean strings).  The Python string
operations used by the code (str.replace, str.split, str.strip,
str.find, slicing) are modelled below with the exact Python semantics:
replace substitutes every non-overlapping occurrence left to right,
split keeps empty fields, strip removes leading and trailing characters
drawn from a character set.
-/

set_option maxHeartbeats 1600000
set_option maxRecDepth 100000

/-- Python str.replace, on character lists, with explicit fuel (the fuel
is always instantiated with the length of the scanned list, which
suffices because every step consumes at least one character). -/
def pyReplaceAux (pat rep : List Char) (fuel : Nat) (s : List Char) : List Char :=
  match s, fuel with
  | [], _ => []
  | c :: cs, 0 => c :: cs
  | c :: cs, fuel + 1 =>
    if pat ≠ [] ∧ pat <+: (c :: cs) then
      rep ++ pyReplaceAux pat rep fuel ((c :: cs).drop pat.length)
    else
      c :: pyReplaceAux pat rep fuel cs

/-- Python str.replace on character lists: every non-overlapping
occurrence of `pat` in `s`, scanned left to right, is replaced by
`rep`.  Matches are found in the original string, exactly as in
CPython. -/
def pyReplace (s pat rep : List Char) : List Char :=
  pyReplaceAux pat rep s.length s

/-- Fuel irrelevance for `pyReplaceAux`: any fuel of at least the length
of the scanned list computes `pyReplace`. -/
theorem pyReplaceAux_congr (pat rep : List Char) :
    ∀ fuel : Nat, ∀ s : List Char, s.length ≤ fuel →
      pyReplaceAux pat rep fuel s = pyReplaceAux pat rep s.length s := by
  intro fuel
  induction fuel using Nat.strong_induction_on with
  | _ fuel ih =>
    intro s hs
    cases s with
    | nil => cases fuel <;> rfl
    | cons c cs =>
      have hs' : cs.length + 1 ≤ fuel := by
        simpa using hs
      cases fuel with
      | zero => omega
      | succ f =>
        have hf : cs.length ≤ f := by omega
        show pyReplaceAux pat rep (f + 1) (c :: cs) = pyReplaceAux pat rep (cs.length + 1) (c :: cs)
        by_cases h : pat ≠ [] ∧ pat <+: (c :: cs)
        · have hpat : 1 ≤ pat.length := by
            rcases h with ⟨h1, _⟩
            cases pat with
            | nil => exact absurd rfl h1
            | cons p ps => simp
          have hdl : ((c :: cs).drop pat.length).length = cs.length + 1 - pat.length := by
            simp [List.length_drop]
          simp only [pyReplaceAux, if_pos h]
          rw [ih f (by omega) _ (by rw [hdl]; omega),
              ih cs.length (by omega) _ (by rw [hdl]; omega)]
        · simp only [pyReplaceAux, if_neg h]
          rw [ih f (by omega) cs hf, ih cs.length (by omega) cs (le_refl _)]

/-- Unfolding equation for `pyReplace` on the empty string. -/
theorem pyReplace_nil (pat rep : List Char) : pyReplace [] pat rep = [] := rfl

/-- Unfolding equation for `pyReplace` on a cons cell. -/
theorem pyReplace_cons (c : Char) (cs pat rep : List Char) :
    pyReplace (c :: cs) pat rep =
      if pat ≠ [] ∧ pat <+: (c :: cs) then
        rep ++ pyReplace ((c :: cs).drop pat.length) pat rep
      else
        c :: pyReplace cs pat rep := by
  show pyReplaceAux pat rep (cs.length + 1) (c :: cs) = _
  by_cases h : pat ≠ [] ∧ pat <+: (c :: cs)
  · have hpat : 1 ≤ pat.length := by
      rcases h with ⟨h1, _⟩
      cases pat with
      | nil => exact absurd rfl h1
      | cons p ps => simp
    simp only [pyReplaceAux, if_pos h]
    rw [pyReplaceAux_congr pat rep cs.length _ (by simp [List.length_drop]; omega)]
    rfl
  · simp only [pyReplaceAux, if_neg h]
    rw [pyReplaceAux_congr pat rep cs.length cs (le_refl _)]
    rfl

/-- Python str.split with an explicit separator, on character lists,
with fuel (instantiated with the length of the scanned list).  Keeps
empty fields, exactly like Python. -/
def pySplitAux (sep : List Char) (fuel : Nat) (s : List Char) : List (List Char) :=
  match s, fuel with
  | [], _ => [[]]
  | c :: cs, 0 => [c :: cs]
  | c :: cs, fuel + 1 =>
    if sep ≠ [] ∧ sep <+: (c :: cs) then
      [] :: pySplitAux sep fuel ((c :: cs).drop sep.length)
    else
      match pySplitAux sep fuel cs with
      | [] => [[c]]
      | p :: ps => (c :: p) :: ps

/-- Python str.split with explicit separator `sep`.  A call with an
empty separator raises ValueError in Python; the code under
verification only splits on the concrete separators " . ", " " and
"  ", so that case never arises and is mapped to the identity here. -/
def pySplit (sep s : List Char) : List (List Char) :=
  if sep = [] then [s] else pySplitAux sep s.length s

/-- Fuel irrelevance for `pySplitAux`. -/
theorem pySplitAux_congr (sep : List Char) :
    ∀ fuel : Nat, ∀ s : List Char, s.length ≤ fuel →
      pySplitAux sep fuel s = pySplitAux sep s.length s := by
  intro fuel
  induction fuel using Nat.strong_induction_on with
  | _ fuel ih =>
    intro s hs
    cases s with
    | nil => cases fuel <;> rfl
    | cons c cs =>
      have hs' : cs.length + 1 ≤ fuel := by
        simpa using hs
      cases fuel with
      | zero => omega
      | succ f =>
        have hf : cs.length ≤ f := by omega
        show pySplitAux sep (f + 1) (c :: cs) = pySplitAux sep (cs.length + 1) (c :: cs)
        by_cases h : sep ≠ [] ∧ sep <+: (c :: cs)
        · have hpat : 1 ≤ sep.length := by
            rcases h with ⟨h1, _⟩
            cases sep with
            | nil => exact absurd rfl h1
            | cons p ps => simp
          have hdl : ((c :: cs).drop sep.length).length = cs.length + 1 - sep.length := by
            simp [List.length_drop]
          simp only [pySplitAux, if_pos h]
          rw [ih f (by omega) _ (by rw [hdl]; omega),
              ih cs.length (by omega) _ (by rw [hdl]; omega)]
        · simp only [pySplitAux, if_neg h]
          rw [ih f (by omega) cs hf, ih cs.length (by omega) cs (le_refl _)]

/-- Unfolding equation for `pySplit` on a cons cell (nonempty
separator). -/
theorem pySplit_cons (sep : List Char) (hsep : sep ≠ []) (c : Char) (cs : List Char) :
    pySplit sep (c :: cs) =
      if sep <+: (c :: cs) then
        [] :: pySplit sep ((c :: cs).drop sep.length)
      else
        match pySplit sep cs with
        | [] => [[c]]
        | p :: ps => (c :: p) :: ps := by
  have hlen : 1 ≤ sep.length := by
    cases sep with
    | nil => exact absurd rfl hsep
    | cons p ps => simp
  have h0 : pySplit sep (c :: cs) = pySplitAux sep (cs.length + 1) (c :: cs) := by
    simp [pySplit, hsep]
  rw [h0]
  by_cases h : sep <+: (c :: cs)
  · simp only [pySplitAux, if_pos (And.intro hsep h), if_pos h]
    rw [pySplitAux_congr sep cs.length _ (by simp [List.length_drop]; omega)]
    simp [pySplit, hsep]
  · have h2 : ¬ (sep ≠ [] ∧ sep <+: (c :: cs)) := by
      intro hc
      exact h hc.2
    simp only [pySplitAux, if_neg h2, if_neg h]
    rw [pySplitAux_congr sep cs.length cs (le_refl _)]
    simp only [pySplit, if_neg hsep]

/-- Nil case for `pySplit`. -/
theorem pySplit_nil (sep : List Char) (hsep : sep ≠ []) : pySplit sep [] = [[]] := by
  simp [pySplit, pySplitAux, hsep]

/-- Python str.strip(chars): removes the leading and trailing characters
of `s` that belong to the character set `chars` (note: a character SET,
not a substring — this is the Python semantics and is load-bearing for
extract_number below). -/
def pyStrip (chars s : List Char) : List Char :=
  ((s.dropWhile (fun c => decide (c ∈ chars))).reverse.dropWhile
    (fun c => decide (c ∈ chars))).reverse

/-- Python str.find for a single character: first index, or -1 when the
character does not occur. -/
def pyFindChar (s : List Char) (c : Char) : Int :=
  match s.findIdx? (fun x => decide (x = c)) with
  | some i => (i : Int)
  | none => -1

/-- Python slice s[a:b] with the Python index normalization (negative
indices count from the end, out-of-range indices are clamped). -/
def pyNormIdx (len : Nat) (i : Int) : Nat :=
  if i < 0 then ((len : Int) + i).toNat else min i.toNat len

/-- Python slice s[a:b] on character lists. -/
def pySlice (s : List Char) (a b : Int) : List Char :=
  (s.take (pyNormIdx s.length b)).drop (pyNormIdx s.length a)

/-- Substring occurrence test (Python operator in, on strings). -/
def occursB (pat s : List Char) : Bool :=
  decide (pat <:+: s)

/-- Python str.startswith. -/
def pyStartsWith (p s : List Char) : Bool :=
  decide (p <+: s)

/-- Python str.endswith. -/
def pyEndsWith (p s : List Char) : Bool :=
  decide (p <:+ s)

/-- Python str.lower, restricted to the ASCII range actually exercised
by the code (question words and keyword lists are ASCII). -/
def pyLower (s : List Char) : List Char :=
  s.map Char.toLower

example : pyReplace "abcabca".data "ab".data "X".data = "XcXca".data := by decide
example : pyReplace "aaaa".data "aa".data "b".data = "bb".data := by decide
example : pySplit " . ".data "a b . c d".data = ["a b".data, "c d".data] := by decide
example : pySplit " ".data "a  b".data = ["a".data, "".data, "b".data] := by decide
example : pyStrip ['.', '0'] "10".data = "1".data := by decide
example : pyStrip ['.', '0'] "2".data = "2".data := by decide
example : pySlice "hello".data 1 3 = "el".data := by decide
example : pyFindChar "hello".data 'l' = 2 := by decide

/-- A pattern that does not occur in a string leaves it unchanged under
Python replace. -/
theorem pyReplace_of_no_occurrence (s pat rep : List Char) (h : ¬ pat <:+: s) :
    pyReplace s pat rep = s := by
  induction s with
  | nil => rfl
  | cons c cs ih =>
    rw [pyReplace_cons]
    have hnp : ¬ (pat ≠ [] ∧ pat <+: (c :: cs)) := by
      rintro ⟨-, hp⟩
      exact h hp.isInfix
    rw [if_neg hnp, ih (fun hi => h (List.infix_cons hi))]

/-- Replacing a nonempty pattern in a string equal to the pattern gives
exactly the replacement. -/
theorem pyReplace_self (pat rep : List Char) (h : pat ≠ []) :
    pyReplace pat pat rep = rep := by
  cases pat with
  | nil => exact absurd rfl h
  | cons p ps =>
    rw [pyReplace_cons, if_pos (And.intro h (List.prefix_refl _)),
        List.drop_length, pyReplace_nil, List.append_nil]

/-- Helper: if a nonempty pattern free of the character `d` is a prefix
of `a ++ d :: b`, it is a prefix of `a`. -/
theorem prefix_split_of_not_mem {a b pat : List Char} {d : Char}
    (hd : d ∉ pat) (hp : pat <+: a ++ d :: b) :
    pat <+: a := by
  by_cases hlen : pat.length ≤ a.length
  · exact List.prefix_of_prefix_length_le hp (List.prefix_append a (d :: b)) hlen
  · exfalso
    have hidx : a.length < pat.length := by omega
    have hlt : a.length < (a ++ d :: b).length := by
      simp
    have h1 : pat.get ⟨a.length, hidx⟩ = (a ++ d :: b).get ⟨a.length, hlt⟩ := by
      simp only [List.get_eq_getElem]
      exact hp.getElem hidx
    have h2 : (a ++ d :: b).get ⟨a.length, hlt⟩ = d := by
      simp only [List.get_eq_getElem]
      rw [List.getElem_append_right (le_refl a.length)]
      simp
    exact hd (h2 ▸ h1 ▸ List.get_mem pat a.length hidx)

/-- Python replace distributes over a separator character that does not
occur in the pattern: the two sides of the separator are rewritten
independently and the separator survives.  This captures the fact that
a space-free pattern can never match across a space in the joined query
string. -/
theorem pyReplace_append_sep (pat rep : List Char) (d : Char) (hd : d ∉ pat) :
    ∀ n : Nat, ∀ a b : List Char, a.length ≤ n →
      pyReplace (a ++ d :: b) pat rep =
        pyReplace a pat rep ++ d :: pyReplace b pat rep := by
  intro n
  induction n using Nat.strong_induction_on with
  | _ n ih =>
    intro a b ha
    cases a with
    | nil =>
      simp only [List.nil_append]
      rw [pyReplace_cons]
      have hno : ¬ (pat ≠ [] ∧ pat <+: d :: b) := by
        rintro ⟨hne, hp⟩
        cases pat with
        | nil => exact hne rfl
        | cons p ps =>
          rw [List.cons_prefix_cons] at hp
          exact hd (hp.1 ▸ List.mem_cons_self p ps)
      rw [if_neg hno, pyReplace_nil, List.nil_append]
    | cons x a' =>
      have ha' : a'.length + 1 ≤ n := by simpa using ha
      by_cases hC : pat ≠ [] ∧ pat <+: (x :: a') ++ d :: b
      · have hne := hC.1
        have hpa : pat <+: x :: a' := prefix_split_of_not_mem hd hC.2
        have hpat1 : 1 ≤ pat.length := by
          cases pat with
          | nil => exact absurd rfl hne
          | cons p ps => simp
        have hstep : (x :: a') ++ d :: b = x :: (a' ++ d :: b) := rfl
        rw [hstep, pyReplace_cons]
        have hC' : pat ≠ [] ∧ pat <+: x :: (a' ++ d :: b) := ⟨hne, by
          rw [← hstep]; exact hC.2⟩
        rw [if_pos hC']
        rw [pyReplace_cons x a', if_pos ⟨hne, hpa⟩]
        have hdrop : (x :: (a' ++ d :: b)).drop pat.length =
            ((x :: a').drop pat.length) ++ d :: b := by
          rw [← hstep, List.drop_append_of_le_length hpa.length_le]
        rw [hdrop]
        have hmlt : ((x :: a').drop pat.length).length < n := by
          simp only [List.length_drop, List.length_cons]
          omega
        rw [ih _ hmlt _ b (le_refl _), List.append_assoc]
      · have hC2 : ¬ (pat ≠ [] ∧ pat <+: x :: a') := by
          rintro ⟨hne, hp⟩
          exact hC ⟨hne, hp.trans (List.prefix_append _ _)⟩
        have hstep : (x :: a') ++ d :: b = x :: (a' ++ d :: b) := rfl
        rw [hstep, pyReplace_cons]
        have hC' : ¬ (pat ≠ [] ∧ pat <+: x :: (a' ++ d :: b)) := by
          rw [← hstep]; exact hC
        rw [if_neg hC', pyReplace_cons x a', if_neg hC2]
        rw [ih a'.length (by omega) a' b (le_refl _)]
        rfl

/-!
Embedding of deeppavlov/models/kbqa/utils.py.

Questions, tokens and knowledge-base identifiers are all character
lists.  The regular expressions used by the source are modelled by
hand-rolled matchers with the CPython backtracking semantics described
next to each matcher.
-/

/-- Matcher for the scientific-notation group of the regular expression
used by extract_number (a digit, a dot, one or more digits, the two
characters e and +, one or more digits) at the head of the input.
Greedy digit runs are maximal, exactly as the regex engine produces
them. -/
def sciAt (s : List Char) : Option (List Char) :=
  match s with
  | [] => none
  | c :: rest =>
    if c.isDigit then
      match rest with
      | [] => none
      | dot :: rest2 =>
        if dot = '.' then
          let d1 := rest2.takeWhile Char.isDigit
          let rest3 := rest2.dropWhile Char.isDigit
          if d1 ≠ [] then
            match rest3 with
            | e :: plus :: rest4 =>
              if e = 'e' ∧ plus = '+' then
                let d2 := rest4.takeWhile Char.isDigit
                if d2 ≠ [] then some (c :: '.' :: (d1 ++ 'e' :: '+' :: d2)) else none
              else none
            | _ => none
          else none
        else none
    else none

/-- Runs a matcher at every suffix of the input, keeping the match that
starts last.  This reproduces the behaviour of a greedy leading
wildcard in re.search: the group binds at the latest feasible start
position. -/
def findRightmostAux (m : List Char → Option (List Char)) :
    List Char → Option (List Char) → Option (List Char)
  | [], acc => acc
  | c :: cs, acc =>
    findRightmostAux m cs
      (match m (c :: cs) with
       | some g => some g
       | none => acc)

/-- Rightmost match of a matcher over all suffixes. -/
def findRightmost (m : List Char → Option (List Char)) (s : List Char) :
    Option (List Char) :=
  findRightmostAux m s none

/-- Leftmost match of a matcher over all suffixes (plain re.search with
no leading wildcard). -/
def findLeftmost (m : List Char → Option (List Char)) :
    List Char → Option (List Char)
  | [] => none
  | c :: cs =>
    match m (c :: cs) with
    | some g => some g
    | none => findLeftmost m cs

/-- The scientific-notation search of extract_number over the whole
question. -/
def findSci (s : List Char) : Option (List Char) :=
  findRightmost sciAt s

/-- Matches one or two digits followed by the separator character,
preferring the two-digit reading, as the greedy quantifier does;
returns the rest of the input. -/
def matchD12 (sepc : Char) (s : List Char) : Option (List Char) :=
  match s with
  | a :: b :: c :: rest =>
    if a.isDigit ∧ b.isDigit ∧ c = sepc then some rest
    else if a.isDigit ∧ b = sepc then some (c :: rest)
    else none
  | [a, b] => if a.isDigit ∧ b = sepc then some [] else none
  | _ => none

/-- Matches exactly four digits, returning the group and the rest. -/
def match4D (s : List Char) : Option (List Char × List Char) :=
  match s with
  | a :: b :: c :: d :: rest =>
    if a.isDigit ∧ b.isDigit ∧ c.isDigit ∧ d.isDigit then
      some ([a, b, c, d], rest)
    else none
  | _ => none

/-- Date pattern DD/MM/YYYY of extract_year (group is the year). -/
def dateSlash (s : List Char) : Option (List Char) :=
  (matchD12 '/' s).bind fun r1 =>
    (matchD12 '/' r1).bind fun r2 =>
      (match4D r2).map Prod.fst

/-- Date pattern DD-MM-YYYY of extract_year. -/
def dateDash (s : List Char) : Option (List Char) :=
  (matchD12 '-' s).bind fun r1 =>
    (matchD12 '-' r1).bind fun r2 =>
      (match4D r2).map Prod.fst

/-- Date pattern YYYY-MM-DD of extract_year (group is the leading
year; the trailing day needs only one digit before the wildcard). -/
def dateYearFirst (s : List Char) : Option (List Char) :=
  (match4D s).bind fun p =>
    match p.2 with
    | dash :: r2 =>
      if dash = '-' then
        (matchD12 '-' r2).bind fun r3 =>
          match r3 with
          | d :: _ => if d.isDigit then some p.1 else none
          | [] => none
      else none
    | [] => none

/-- Token pattern (four digits anywhere): leftmost four-digit run. -/
def tokYear1 (tok : List Char) : Option (List Char) :=
  findLeftmost (fun s => (match4D s).map Prod.fst) tok

/-- Token pattern anchored at the start: four digits then a dash. -/
def tokYear2 (tok : List Char) : Option (List Char) :=
  (match4D tok).bind fun p =>
    match p.2 with
    | dash :: _ => if dash = '-' then some p.1 else none
    | [] => none

/-- Token pattern anchored at the end: a dash then four digits. -/
def tokYear3 (tok : List Char) : Option (List Char) :=
  match tok.reverse with
  | d :: c :: b :: a :: dash :: _ =>
    if a.isDigit ∧ b.isDigit ∧ c.isDigit ∧ d.isDigit ∧ dash = '-' then
      some [a, b, c, d]
    else none
  | _ => none

/-- Token scan of extract_year: first token matching any of the three
token patterns, tried in order, wins. -/
def tokenYearLoop : List (List Char) → List Char
  | [] => []
  | t :: ts =>
    match tokYear1 t with
    | some y => y
    | none =>
      match tokYear2 t with
      | some y => y
      | none =>
        match tokYear3 t with
        | some y => y
        | none => tokenYearLoop ts

/-- Embedding of extract_year (utils.py lines 20-35): the three
whole-question date patterns are tried in order (each by re.search with
a greedy leading wildcard, hence the rightmost occurrence); if none
matches, the per-token patterns are scanned and the first token match
is returned; otherwise the empty string. -/
def extract_year (question_tokens : List (List Char)) (question : List Char) :
    List Char :=
  match findRightmost dateSlash question with
  | some y => y
  | none =>
    match findRightmost dateDash question with
    | some y => y
    | none =>
      match findRightmost dateYearFirst question with
      | some y => y
      | none => tokenYearLoop question_tokens

/-- First token whose first character is a digit.  Python evaluates
tok[0] and raises IndexError on an empty token, which the embedding
reports as an error value. -/
def firstDigitTok : List (List Char) → Except String (List Char)
  | [] => Except.ok []
  | t :: ts =>
    match t with
    | [] => Except.error "IndexError"
    | c :: _ => if c.isDigit then Except.ok t else firstDigitTok ts

/-- Embedding of extract_number (utils.py lines 38-52): the
scientific-notation regex over the whole question wins, otherwise the
first token beginning with a digit is taken; ordinal substrings 1st,
2nd, 3rd are rewritten to their digits; finally Python strip(".0")
removes every leading and trailing character belonging to the
two-character set dot/zero (not merely a trailing ".0" substring). -/
def extract_number (question_tokens : List (List Char)) (question : List Char) :
    Except String (List Char) := do
  let number ←
    match findSci question with
    | some m => Except.ok m
    | none => firstDigitTok question_tokens
  let number := pyReplace number "1st".data "1".data
  let number := pyReplace number "2nd".data "2".data
  let number := pyReplace number "3rd".data "3".data
  Except.ok (pyStrip ['.', '0'] number)

/-- Embedding of asc_desc (utils.py lines 55-63): true (ascending)
unless the lowercased question contains one of the fixed superlative
substrings. -/
def asc_desc (question : List Char) : Bool :=
  let question_lower := pyLower question
  let max_words := ["maximum", "highest", "max ", "greatest", "most",
                    "longest", "biggest", "deepest"].map String.data
  !(max_words.any (fun w => occursB w question_lower))

example : extract_year [] "born on 12/05/2001 maybe".data = "2001".data := by decide
example : extract_year ["1995".data] "born in 1995".data = "1995".data := by decide
example : extract_year ["abc".data] "no digits here".data = [] := by decide
example : extract_number ["2nd".data, "place".data] "finished 2nd place".data
    = Except.ok "2".data := rfl
example : extract_number ["10".data] "has 10 cats".data = Except.ok "1".data := rfl
example : asc_desc "what is the highest mountain".data = false := by decide
example : asc_desc "what is the capital".data = true := by decide
example : findSci "about 1.5e+10 units".data = some "1.5e+10".data := by decide

/-- Cross product of a list of candidate lists, in the enumeration
order of itertools.product (leftmost factor varies slowest). -/
def pyProduct {α : Type} : List (List α) → List (List α)
  | [] => [[]]
  | l :: ls => l.flatMap (fun x => (pyProduct ls).map (fun c => x :: c))

/-- All ways to pick one element out of a list, in index order, each
paired with the remaining elements in their original order. -/
def picks {α : Type} : List α → List (α × List α)
  | [] => []
  | x :: xs => (x, xs) :: (picks xs).map (fun p => (p.1, x :: p.2))

/-- Permutations in the enumeration order of itertools.permutations
(lexicographic in the index sequence), with fuel (instantiated with the
length of the list). -/
def pyPermutationsAux {α : Type} : Nat → List α → List (List α)
  | _, [] => [[]]
  | 0, _ :: _ => [[]]
  | fuel + 1, x :: xs =>
    (picks (x :: xs)).flatMap
      (fun p => (pyPermutationsAux fuel p.2).map (fun c => p.1 :: c))

/-- Permutations of a list in the itertools.permutations order. -/
def pyPermutations {α : Type} (l : List α) : List (List α) :=
  pyPermutationsAux l.length l

/-- Insertion into a key-sorted list, placing the new element before
the first resident element of greater-or-equal key.  Folding this over
a list from the right gives the unique stable sort, which is what
Python sorted with a key function computes. -/
def pyInsertB {α : Type} (key : α → Nat) (x : α) : List α → List α
  | [] => [x]
  | y :: ys =>
    if key y < key x then y :: pyInsertB key x ys else x :: y :: ys

/-- Python sorted with a key function: the stable sort by the key. -/
def pySorted {α : Type} (key : α → Nat) : List α → List α
  | [] => []
  | x :: xs => pyInsertB key x (pySorted key xs)

/-- Aggregate rank of an annotated combination: the sum of the
per-element ranks. -/
def sumRanks (c : List (List Char × Nat)) : Nat :=
  (c.map Prod.snd).sum

/-- Embedding of make_combs (utils.py lines 65-76).  Each candidate in
each input list is annotated with its 0-based rank; the cross product
is taken in the itertools.product order; with permut every product
tuple is expanded into all its orderings; the result is stably sorted
by ascending aggregate rank.  Python appends the aggregate rank sum as
a final heterogeneous list element; the embedding represents each
output combination as the pair of (identifier list, aggregate rank
sum), which is the same data (the identifier list is Python
comb[:-1], the rank sum is Python comb[-1]). -/
def make_combs (entity_ids : List (List (List Char))) (permut : Bool) :
    List (List (List Char) × Nat) :=
  let annotated := entity_ids.map (fun el => el.enum.map (fun p => (p.2, p.1)))
  let prod := pyProduct annotated
  let permuted := if permut then prod.flatMap pyPermutations else prod
  let sorted := pySorted sumRanks permuted
  sorted.map (fun comb => (comb.map Prod.fst, sumRanks comb))

/-- Python str.join on character lists. -/
def pyJoin (sep : List Char) : List (List Char) → List Char
  | [] => []
  | [x] => x
  | x :: y :: rest => x ++ sep ++ pyJoin sep (y :: rest)

/-- Namespace-prefix rewriting table of fill_query (utils.py lines
86-92), in source order (the wdt: entry appears twice, exactly as in
the source). -/
def map_query_str_to_wikidata : List (List Char × List Char) :=
  [("P0".data, "http://schema.org/description".data),
   ("wd:".data, "http://www.wikidata.org/entity/".data),
   ("wdt:".data, "http://www.wikidata.org/prop/direct/".data),
   (" p:".data, " http://www.wikidata.org/prop/".data),
   ("wdt:".data, "http://www.wikidata.org/prop/direct/".data),
   ("ps:".data, "http://www.wikidata.org/prop/statement/".data),
   ("pq:".data, "http://www.wikidata.org/prop/qualifier/".data)]

/-- Placeholder token E{n} / T{n} / R{n} as formatted by the source
f-strings (1-indexed). -/
def placeholder (x : Char) (n : Nat) : List Char :=
  x :: (toString n).data

/-- Embedding of fill_query (utils.py lines 78-104).  The triple grid
is joined into one string (single space inside a triple, double space
between triples), the namespace prefixes are rewritten, then the
E{n}/T{n}/R{n} placeholders are substituted by plain string replace in
index order, and the string is split back into the grid.  Combinations
are the (identifiers, aggregate rank) pairs produced by make_combs;
the identifier component corresponds to Python entity_comb[:-1]. -/
def fill_query (query : List (List (List Char)))
    (entity_comb type_comb rel_comb : List (List Char) × Nat) :
    List (List (List Char)) :=
  let q1 := pyJoin "  ".data (query.map (pyJoin " ".data))
  let q2 := map_query_str_to_wikidata.foldl (fun q p => pyReplace q p.1 p.2) q1
  let q3 := entity_comb.1.enum.foldl
    (fun q p => pyReplace q (placeholder 'E' (p.1 + 1)) p.2) q2
  let q4 := type_comb.1.enum.foldl
    (fun q p => pyReplace q (placeholder 'T' (p.1 + 1)) p.2) q3
  let q5 := rel_comb.1.enum.foldl
    (fun q p => pyReplace q (placeholder 'R' (p.1 + 1)) p.2) q4
  (pySplit "  ".data q5).map (pySplit " ".data)

example : pyProduct [[1, 2], [3]] = [[1, 3], [2, 3]] := by decide
example : pyPermutations [1, 2, 3] =
    [[1, 2, 3], [1, 3, 2], [2, 1, 3], [2, 3, 1], [3, 1, 2], [3, 2, 1]] := by decide
example : make_combs [["Q1".data, "Q2".data]] false =
    [(["Q1".data], 0), (["Q2".data], 1)] := rfl
example :
    make_combs [["A".data, "B".data], ["C".data, "D".data]] false =
      [([ "A".data, "C".data], 0), ([ "A".data, "D".data], 1),
       ([ "B".data, "C".data], 1), ([ "B".data, "D".data], 2)] := rfl
example :
    fill_query [[ "?ent".data, "wdt:P31".data, "wd:T1".data],
                [ "?ent".data, "wdt:R1".data, "wd:E1".data]]
        (["Q1".data], 0) (["T5".data], 0) (["P100".data], 0) =
      [[ "?ent".data, "http://www.wikidata.org/prop/direct/P31".data,
         "http://www.wikidata.org/entity/T5".data],
       [ "?ent".data, "http://www.wikidata.org/prop/direct/P100".data,
         "http://www.wikidata.org/entity/Q1".data]] := rfl

/-!
Embedding of deeppavlov/models/kbqa/wiki_parser.py.

The underlying HDT triple store is external; search_join and
search_triples are therefore parameters of the embedded operations.
Row values coming back from a join are strings; the COUNT aggregate
appends a Python int, so result cells are a sum of the two.
-/

/-- A result cell of the store adapter: a string value from a join row,
or the integer produced by the COUNT aggregate. -/
inductive PyVal : Type where
  | s (v : List Char) : PyVal
  | n (v : Nat) : PyVal
deriving DecidableEq

/-- A runtime value reaching the filter_entities loop of
WikiParser.__call__: the adapter is called by QueryGenerator with a
list of (direction, variable) tuples in that position, but the loop
body treats each element as a string, so both shapes are modelled. -/
inductive FEnt : Type where
  | tup (a b : List Char) : FEnt
  | str (v : List Char) : FEnt
deriving DecidableEq

/-- The apostrophe character (written by code point to keep the source
free of quote-escape noise). -/
def apos : Char := Char.ofNat 39

/-- The double-quote character. -/
def dquote : Char := Char.ofNat 34

/-- Python dict built from a pair list: a duplicate key is overridden
by the later pair, so lookup takes the last match; a missing key is a
KeyError. -/
def lookupLast (row : List (List Char × List Char)) (k : List Char) :
    Except String (List Char) :=
  match row.reverse.find? (fun p => decide (p.1 = k)) with
  | some p => Except.ok p.2
  | none => Except.error "KeyError"

/-- Digit run to a natural number. -/
def digitsToNat (ds : List Char) : Nat :=
  ds.foldl (fun a c => a * 10 + (c.toNat - 48)) 0

/-- Python float() on the strings reaching the ORDER BY stage, modelled
with exact rationals (IEEE rounding is not modelled; every claim
verified below exercises the adapter with order = None, so this stage
is never reached in any proof about a concrete run). -/
def pyFloat (s0 : List Char) : Except String ℚ :=
  let sign : ℚ × List Char :=
    match s0 with
    | c :: rest =>
      if c = '-' then (-1, rest) else if c = '+' then (1, rest) else (1, s0)
    | [] => (1, s0)
  let s1 := sign.2
  let ip := s1.takeWhile Char.isDigit
  let s2 := s1.dropWhile Char.isDigit
  let frac : List Char × List Char :=
    match s2 with
    | dot :: rest =>
      if dot = '.' then (rest.takeWhile Char.isDigit, rest.dropWhile Char.isDigit)
      else ([], s2)
    | [] => ([], s2)
  let fp := frac.1
  let s3 := frac.2
  if ip = [] ∧ fp = [] then Except.error "ValueError"
  else
    let mant : ℚ :=
      sign.1 * ((digitsToNat ip : ℚ) + (digitsToNat fp : ℚ) / ((10 : ℚ) ^ fp.length))
    match s3 with
    | [] => Except.ok mant
    | e :: rest =>
      if e = 'e' ∨ e = 'E' then
        let esign : Int × List Char :=
          match rest with
          | c :: rr =>
            if c = '-' then (-1, rr) else if c = '+' then (1, rr) else (1, rest)
          | [] => (1, rest)
        let ed := esign.2.takeWhile Char.isDigit
        let r3 := esign.2.dropWhile Char.isDigit
        if ed = [] ∨ r3 ≠ [] then Except.error "ValueError"
        else Except.ok (mant * (10 : ℚ) ^ (esign.1 * (digitsToNat ed : Int)))
      else Except.error "ValueError"

/-- Monadic filter of join rows by a parsed filter clause: Python
evaluates comb[filter_elem] (KeyError on a missing variable) and keeps
the row when the filter value is a substring. -/
def filterCombs (fElem fValue : List Char) :
    List (List (List Char × List Char)) →
      Except String (List (List (List Char × List Char)))
  | [] => Except.ok []
  | r :: rs => do
    let v ← lookupLast r fElem
    let rest ← filterCombs fElem fValue rs
    if occursB fValue v then Except.ok (r :: rest) else Except.ok rest

/-- The filter_entities loop of WikiParser.__call__ (lines 57-63).  A
tuple element has no replace attribute (AttributeError); a string
element is cleaned of apostrophes and closing parentheses and split on
a comma-space into exactly two fields (ValueError otherwise). -/
def applyFilterEntities :
    List FEnt → List (List (List Char × List Char)) →
      Except String (List (List (List Char × List Char)))
  | [], combs => Except.ok combs
  | fe :: fes, combs =>
    match fe with
    | FEnt.tup _ _ => Except.error "AttributeError"
    | FEnt.str v => do
      let cleaned := pyReplace (pyReplace v [apos] []) [')'] []
      match pySplit ", ".data cleaned with
      | [fElem, fValue] => do
        let filtered ← filterCombs fElem fValue combs
        applyFilterEntities fes filtered
      | _ => Except.error "ValueError"

/-- Stable insertion keyed by a rational, with a reverse flag: the
resident element stays in front exactly when it must strictly precede
the incoming (earlier) element, which reproduces the stability of
Python sorted in both directions. -/
def pyInsertQ {α : Type} (key : α → ℚ) (rev : Bool) (x : α) : List α → List α
  | [] => [x]
  | y :: ys =>
    if (if rev then key x < key y else key y < key x) then
      y :: pyInsertQ key rev x ys
    else x :: y :: ys

/-- Stable sort by a rational key with a reverse flag (Python sorted
with key and reverse arguments). -/
def pySortedQ {α : Type} (key : α → ℚ) (rev : Bool) : List α → List α
  | [] => []
  | x :: xs => pyInsertQ key rev x (pySortedQ key rev xs)

/-- The ORDER BY stage of WikiParser.__call__ (lines 65-71): rows are
sorted by the float value of the sort variable (the part before any
datatype suffix, with double quotes stripped) and only the best row is
kept. -/
def applyOrder (ord : List (List Char × List Char))
    (combs : List (List (List Char × List Char))) :
    Except String (List (List (List Char × List Char))) :=
  match ord with
  | [] => Except.error "IndexError"
  | (dir, sortElem) :: _ => do
    let keyed ← combs.mapM (fun r => do
      let v ← lookupLast r sortElem
      let first :=
        match pySplit "^^".data v with
        | p :: _ => p
        | [] => []
      let q ← pyFloat (pyStrip [dquote] first)
      Except.ok (q, r))
    let sorted := pySortedQ Prod.fst (dir = "DESC".data) keyed
    Except.ok ((sorted.take 1).map Prod.snd)

/-- Embedding of WikiParser.__call__ (wiki_parser.py lines 33-78).  The
join backend is the search_join parameter (the external HDT store); the
query argument is opaque to the adapter and is passed through to the
backend unchanged, exactly as in the source.  When the join is empty
every later stage is skipped and the empty list is returned.  When the
join is non-empty and unknown_query_triplets is non-empty, the loop
body reads the name unknown_query_triplet, which is bound nowhere, so
Python raises NameError.  The filter and order stages follow lines
57-71; the final projection follows lines 73-76, including the
IndexError of what_return[-1] on an empty projection list and the
COUNT aggregate that reads row 0 (IndexError when the filter stage
removed every row). -/
def wikiParserCall {σ υ : Type}
    (search_join : σ → List (List (List Char × List Char)))
    (what_return : List (List Char))
    (query : σ)
    (unknown_query_triplets : List υ)
    (filter_entities : List FEnt)
    (order : Option (List (List Char × List Char))) :
    Except String (List (List PyVal)) :=
  let combs := search_join query
  match combs with
  | [] => Except.ok []
  | _ :: _ => do
    let combs ←
      if unknown_query_triplets.isEmpty then Except.ok combs
      else Except.error "NameError: name unknown_query_triplet is not defined"
    let combs ← applyFilterEntities filter_entities combs
    let combs ←
      match order with
      | none => Except.ok combs
      | some ord => if ord.isEmpty then Except.ok combs else applyOrder ord combs
    match what_return.getLast? with
    | none => Except.error "IndexError"
    | some last =>
      if pyStartsWith "COUNT".data last then
        match combs with
        | [] => Except.error "IndexError"
        | c0 :: _ => do
          let vals ← what_return.dropLast.mapM (lookupLast c0)
          Except.ok [vals.map PyVal.s ++ [PyVal.n combs.length]]
      else do
        let rows ← combs.mapM (fun r => what_return.mapM (lookupLast r))
        Except.ok (rows.map (fun row => row.map PyVal.s))

/-- Embedding of WikiParser.find_label (wiki_parser.py lines 80-107).
The first guard of the source is the expression type(a) == str, but no
name a is bound anywhere in the module or the function, so every call
raises NameError before any of the normalization logic runs.  The
search_triples backend parameter is therefore never consulted. -/
def find_label
    (_search_triples : List Char → List Char → List Char →
      List (List Char × List Char × List Char) × Nat)
    (_entity : List Char) : Except String (List Char) :=
  Except.error "NameError: name a is not defined"

/-- The evident intent of WikiParser.find_label, obtained from the
source by reading type(a) as type(entity) (the only bound name of that
shape): quote characters are dropped, a bare Q-identifier is expanded
to a full entity URI, an entity URI is resolved through the rdf-schema
label predicate keeping the first English label, an @en literal is
unwrapped, a typed literal keeps the part before the datatype suffix
with date-time tokens removed, a digit string passes through, and
everything else yields the sentinel Not Found. -/
def find_label_fixed
    (search_triples : List Char → List Char → List Char →
      List (List Char × List Char × List Char) × Nat)
    (entity0 : List Char) : List Char :=
  let entity := pyReplace entity0 [dquote] []
  let entity :=
    if pyStartsWith "Q".data entity then
      "http://www.wikidata.org/entity/".data ++ entity
    else entity
  if pyStartsWith "http://www.wikidata.org/entity/".data entity then
    let labels :=
      (search_triples entity "http://www.w3.org/2000/01/rdf-schema#label".data []).1
    match labels.find? (fun t => pyEndsWith "@en".data t.2.2) with
    | some t => pyReplace (pyStrip ['@', 'e', 'n'] t.2.2) [dquote] []
    | none => "Not Found".data
  else if pyEndsWith "@en".data entity then
    pyReplace entity "@en".data []
  else if occursB "^^".data entity then
    let entity :=
      match pySplit "^^".data entity with
      | p :: _ => p
      | [] => []
    let entity := pyReplace entity "T00:00:00Z".data []
    pyReplace entity "+".data []
  else if entity ≠ [] ∧ entity.all Char.isDigit then
    entity
  else "Not Found".data

example :
    wikiParserCall (fun _ : Unit => [[("?ent".data, "Q777".data)]])
      ["?ent".data] () ([] : List Unit) [] none =
    Except.ok [[PyVal.s "Q777".data]] := rfl
example :
    wikiParserCall (fun _ : Unit => []) ["COUNT(?ent)".data] () ([] : List Unit)
      [] none = Except.ok [] := rfl
example :
    find_label_fixed (fun _ _ _ => ([], 0)) "abc@en".data = "abc".data := rfl

/-!
Embedding of deeppavlov/models/kbqa/query_generator.py.

The template matcher, entity linkers and relation ranker are external
components and enter as function parameters; the store adapter is the
wikiParserCall embedding above, with the HDT search_join backend as a
parameter.  Note the call-site shape at line 266-267 of the source:
QueryGenerator.query_parser passes only four positional arguments to
WikiParser.__call__, so filter_from_query arrives in the
unknown_query_triplets position, order_from_query arrives in the
filter_entities position, and order is always None on this path.
-/

/-- A template record of the template file, as consumed by
query_parser and find_candidate_answers (the alternative_templates
field holds full template records, hence the nested inductive). -/
inductive QueryTemplate : Type where
  | mk (query_template : List Char) (rank_rels : List Nat)
       (query_sequence : List Nat) (return_if_found : Bool)
       (rel_dirs : List (List Char)) (entities_and_types_num : List Nat)
       (alternative_templates : List QueryTemplate) : QueryTemplate

def QueryTemplate.query_template : QueryTemplate → List Char
  | .mk q _ _ _ _ _ _ => q

def QueryTemplate.rank_rels : QueryTemplate → List Nat
  | .mk _ r _ _ _ _ _ => r

def QueryTemplate.query_sequence : QueryTemplate → List Nat
  | .mk _ _ s _ _ _ _ => s

def QueryTemplate.return_if_found : QueryTemplate → Bool
  | .mk _ _ _ b _ _ _ => b

def QueryTemplate.rel_dirs : QueryTemplate → List (List Char)
  | .mk _ _ _ _ d _ _ => d

def QueryTemplate.entities_and_types_num : QueryTemplate → List Nat
  | .mk _ _ _ _ _ n _ => n

def QueryTemplate.alternative_templates : QueryTemplate → List QueryTemplate
  | .mk _ _ _ _ _ _ a => a

/-- Embedding of QueryGenerator.get_entity_ids (query_generator.py
lines 158-166): each mention is linked and the ranked identifier list
is truncated to its first fifteen entries by the hard-coded slice
entity_id[:15]; the configurable entities_to_leave attribute is not
consulted here.  A what_to_link value other than the two expected
strings leaves entity_id unbound and raises NameError on the first
iteration. -/
def get_entity_ids
    (linker_entities linker_types : List Char → List (List Char) × List ℚ)
    (entities : List (List Char)) (what_to_link : List Char) :
    Except String (List (List (List Char))) :=
  if what_to_link = "entities".data then
    Except.ok (entities.map (fun e => (linker_entities e).1.take 15))
  else if what_to_link = "types".data then
    Except.ok (entities.map (fun e => (linker_types e).1.take 15))
  else if entities.isEmpty then Except.ok []
  else Except.error "NameError"

/-- Non-space test (the only whitespace in the query strings under
analysis is the plain space, so the regex class of non-whitespace
characters is modelled as non-space). -/
def nonspace (c : Char) : Bool :=
  c ≠ ' '

/-- Left brace and right brace characters by code point. -/
def lbrace : Char := Char.ofNat 123

def rbrace : Char := Char.ofNat 125

/-- One match attempt of the SELECT regex of query_parser at the head
of the input: the literal SELECT and a space, an optional opening
parenthesis (greedy, with the regex backtracking that retries without
consuming it), then a maximal run of non-space characters that must be
followed by a space.  Returns the group and the rest of the input
after the match. -/
def selectAt (s : List Char) : Option (List Char × List Char) :=
  if pyStartsWith "SELECT ".data s then
    let rest := s.drop 7
    let attempt2 : Option (List Char × List Char) :=
      let run := rest.takeWhile nonspace
      let r3 := rest.dropWhile nonspace
      match r3 with
      | sp :: r4 => if run ≠ [] ∧ sp = ' ' then some (run, r4) else none
      | [] => none
    match rest with
    | c :: r2 =>
      if c = '(' then
        let run := r2.takeWhile nonspace
        let r3 := r2.dropWhile nonspace
        match r3 with
        | sp :: r4 => if run ≠ [] ∧ sp = ' ' then some (run, r4) else attempt2
        | [] => attempt2
      else attempt2
    | [] => none
  else none

/-- Non-overlapping left-to-right scan with a matcher, as re.findall:
after a match the scan resumes past the matched text; otherwise it
advances one character.  Fuel is the length of the scanned string. -/
def findallScan {β : Type} (m : List Char → Option (β × List Char)) :
    Nat → List Char → List β
  | _, [] => []
  | 0, _ :: _ => []
  | fuel + 1, c :: cs =>
    match m (c :: cs) with
    | some (g, rest) => g :: findallScan m fuel rest
    | none => findallScan m fuel cs

/-- All matches of a matcher over a string, re.findall style. -/
def findallMatches {β : Type} (m : List Char → Option (β × List Char))
    (s : List Char) : List β :=
  findallScan m s.length s

/-- The answer-variable extraction of query_parser (line 239). -/
def findallSelect (query : List Char) : List (List Char) :=
  findallMatches selectAt query

/-- The character class of the ORDER BY regex at line 240 of the
source.  The source pattern places ASC|DESC inside square brackets, so
it is a character class matching ONE character drawn from these six,
not an alternation of the two words. -/
def orderClassChars : List Char := ['A', 'S', 'C', '|', 'D', 'E']

/-- One match attempt of the ORDER BY regex at the head of the input:
the literal ORDER BY and a space, one character from the class, an
opening parenthesis, a greedy dot-star group running to the last
closing parenthesis of the line.  (On the real templates, which spell
ORDER BY ASC(...), the single-character class consumes the A and the
following S fails to match the literal parenthesis, so there is no
match — the embedding reproduces that.) -/
def orderAt (s : List Char) :
    Option ((List Char × List Char) × List Char) :=
  if pyStartsWith "ORDER BY ".data s then
    let rest := s.drop 9
    match rest with
    | d :: op :: r2 =>
      if d ∈ orderClassChars ∧ op = '(' then
        match r2.reverse.findIdx? (fun c => decide (c = ')')) with
        | none => none
        | some k =>
          let idx := r2.length - 1 - k
          some (([d], r2.take idx), r2.drop (idx + 1))
      else none
    | _ => none
  else none

/-- The ORDER BY extraction of query_parser (line 240): a list of
(direction-group, variable-group) pairs. -/
def findallOrder (query : List Char) : List (List Char × List Char) :=
  findallMatches orderAt query

/-- One match attempt of the contains regex of query_parser (line 246)
at the head of the input: the literal contains and an opening
parenthesis, a question mark and one word character as the first
group, a comma and a space, then a lazy dot-plus group up to the first
closing parenthesis reachable with at least one character consumed. -/
def containsAt (s : List Char) :
    Option ((List Char × List Char) × List Char) :=
  if pyStartsWith "contains(".data s then
    let rest := s.drop 9
    match rest with
    | q :: w :: comma :: sp :: r2 =>
      if q = '?' ∧ (w.isAlphanum ∨ w = '_') ∧ comma = ',' ∧ sp = ' ' then
        match (r2.drop 1).findIdx? (fun c => decide (c = ')')) with
        | some k1 => some ((['?', w], r2.take (k1 + 1)), r2.drop (k1 + 2))
        | none => none
      else none
    | _ => none
  else none

/-- The filter clause extraction of query_parser (line 246). -/
def findallContains (query : List Char) : List (List Char × List Char) :=
  findallMatches containsAt query

/-- An element of the processed filter list as it reaches the store
adapter call: depending on the year/number branches the Python list
holds tuples or strings. -/
inductive FQElem : Type where
  | pair (p : List Char × List Char) : FQElem
  | str (s : List Char) : FQElem
deriving DecidableEq

/-- Python elem[1] on a string: the second character as a one-character
string (IndexError when the string is shorter). -/
def charAt1 (l : List Char) : Except String (List Char) :=
  match l with
  | _ :: c :: _ => Except.ok [c]
  | _ => Except.error "IndexError"

/-- The year/number post-processing of the filter clause list
(query_parser lines 249-258).  With a year present the tuple list is
mapped to strings (the second field with YEAR substituted); a
subsequent number branch then evaluates elem[1] on those strings (the
second character — the source indexes a string here, which is a latent
type confusion reproduced faithfully); with no year the tuple list is
filtered, and a number maps the remaining tuples to strings. -/
def filterStage (f0 : List (List Char × List Char)) (year number : List Char) :
    Except String (List FQElem) :=
  if year ≠ [] then
    let strs := f0.map (fun e => pyReplace e.2 "YEAR".data year)
    if number ≠ [] then do
      let strs2 ← strs.mapM charAt1
      Except.ok (strs2.map FQElem.str)
    else do
      let _ ← strs.mapM charAt1
      Except.ok (strs.map FQElem.str)
  else
    let pairs := f0.filter (fun e => e.2 ≠ "YEAR".data)
    if number ≠ [] then
      Except.ok ((pairs.map (fun e => pyReplace e.2 "NUMBER".data number)).map FQElem.str)
    else
      Except.ok ((pairs.filter (fun e => e.2 ≠ "NUMBER".data)).map FQElem.pair)

/-- Python max on a list of naturals (ValueError on the empty list). -/
def pyMaxNat : List Nat → Except String Nat
  | [] => Except.error "ValueError"
  | x :: xs => Except.ok (xs.foldl max x)

/-- The relation-direction extraction of query_parser (lines 219-220):
triples whose rank flag is non-zero contribute (direction, flag),
where the direction is forw when the object position of the triple is
a free variable.  Python indexes triplet[2] and raises IndexError on a
malformed triple. -/
def relDirsAux : List (Nat × List (List Char)) →
    Except String (List (List Char × Nat))
  | [] => Except.ok []
  | (sr, t) :: rest =>
    if sr ≠ 0 then
      match t with
      | _ :: _ :: c :: _ => do
        let dir := if pyStartsWith "?".data c then "forw".data else "backw".data
        let tail ← relDirsAux rest
        Except.ok ((dir, sr) :: tail)
      | _ => Except.error "IndexError"
    else relDirsAux rest

/-- The free-predicate extraction of query_parser (line 238): the
predicates of the parsed triples that start with a question mark
(IndexError on a triple with fewer than two tokens). -/
def relsFromQueryAux : List (List (List Char)) → Except String (List (List Char))
  | [] => Except.ok []
  | t :: ts =>
    match t with
    | _ :: p :: _ => do
      let rest ← relsFromQueryAux ts
      if pyStartsWith "?".data p then Except.ok (p :: rest) else Except.ok rest
    | _ => Except.error "IndexError"

/-- The parsed, question-independent-plus-question-derived data that
query_parser computes before its combination loop (lines 205-260 of
the source). -/
structure PreparedQuery where
  query_triplets : List (List (List Char))
  query_sequence : List (List (List (List Char)))
  rel_directions : List (List Char × Nat)
  rels_from_query : List (List Char)
  answer_ent : List (List Char)
  order_final : List (List Char × List Char)
  filter_final : List FQElem

/-- The preparation stage of query_parser: the triple block between
the braces is split into triples grouped by sequence number, the
relation directions are derived, the SELECT, ORDER BY and contains
clauses are extracted from the raw template string, the ORDER BY
direction is re-derived from the question, and the filter clauses are
resolved against the extracted year and number. -/
def prepareQuery (tokenize : List Char → List (List Char))
    (question : List Char) (query_info : QueryTemplate) :
    Except String PreparedQuery := do
  let question_tokens := tokenize question
  let query := query_info.query_template
  let block := pyStrip [' ']
    (pySlice query (pyFindChar query lbrace + 1) (pyFindChar query rbrace))
  let query_triplets := (pySplit " . ".data block).map
    (fun t => (pySplit " ".data t).take 3)
  let maxn ← pyMaxNat query_info.query_sequence
  let query_sequence := (List.range maxn).map (fun i0 =>
    (query_info.query_sequence.zip query_triplets).filterMap
      (fun p => if p.1 = i0 + 1 then some p.2 else none))
  let rel_directions ← relDirsAux (query_info.rank_rels.zip query_triplets)
  let rels_from_query ← relsFromQueryAux query_triplets
  let answer_ent := findallSelect query
  let order0 := findallOrder query
  let ascending := asc_desc question
  let order_final :=
    if ascending then order0 else order0.map (fun e => ("DESC".data, e.2))
  let f0 := findallContains query
  let year := extract_year question_tokens question
  let number ← extract_number question_tokens question
  let filter_final ← filterStage f0 year number
  Except.ok
    { query_triplets := query_triplets
      query_sequence := query_sequence
      rel_directions := rel_directions
      rels_from_query := rels_from_query
      answer_ent := answer_ent
      order_final := order_final
      filter_final := filter_final }

/-- The product of the three combination lists in the enumeration
order of itertools.product. -/
def prod3 {α β γ : Type} (as : List α) (bs : List β) (cs : List γ) :
    List (α × β × γ) :=
  as.flatMap (fun a => bs.flatMap (fun b => cs.map (fun c => (a, b, c))))

/-- The candidate-combination loop of query_parser (lines 263-270),
instrumented with the number of store-adapter invocations.  For each
combination the stage grids are filled, the store adapter is invoked
once, the rel-combination identifiers (Python combs[2][:-1]) are
prepended to every returned row, and with return_if_found a non-empty
store result stops the loop at once. -/
def query_loop
    (store : List (List (List (List Char))) → Except String (List (List PyVal)))
    (query_sequence : List (List (List (List Char))))
    (return_if_found : Bool) :
    List ((List (List Char) × Nat) × (List (List Char) × Nat) ×
      (List (List Char) × Nat)) →
      Except String (List (List PyVal) × Nat)
  | [] => Except.ok ([], 0)
  | (ec, tc, rc) :: rest => do
    let query_hdt_seq := query_sequence.map (fun elem => fill_query elem ec tc rc)
    let candidate_output ← store query_hdt_seq
    let fresh := candidate_output.map (fun out => rc.1.map PyVal.s ++ out)
    if return_if_found ∧ ¬ candidate_output.isEmpty then
      Except.ok (fresh, 1)
    else do
      let pr ← query_loop store query_sequence return_if_found rest
      Except.ok (fresh ++ pr.1, pr.2 + 1)

/-- Embedding of QueryGenerator.query_parser (query_generator.py lines
202-274), returning the candidate outputs together with the number of
store-adapter invocations.  The external pieces are parameters: the
tokenizer (nltk.word_tokenize), the HDT search_join backend, and
find_top_rels (which consults the relation ranker and the store; it is
only invoked when the template matcher supplied no relations).  The
store adapter receives exactly the four positional arguments of the
source call site: the processed filter list lands in the
unknown_query_triplets parameter and the ORDER BY list lands in the
filter_entities parameter. -/
def queryParser (tokenize : List Char → List (List Char))
    (search_join : List (List (List (List Char))) →
      List (List (List Char × List Char)))
    (ftr : List Char → List (List (List Char)) → (List Char × Nat) →
      List (List Char))
    (question : List Char) (query_info : QueryTemplate)
    (entity_ids type_ids : List (List (List Char)))
    (rels_from_template : Option (List (List (List Char)))) :
    Except String (List (List PyVal) × Nat) := do
  let p ← prepareQuery tokenize question query_info
  let entity_combs := make_combs entity_ids true
  let type_combs := make_combs type_ids false
  let rels :=
    match rels_from_template with
    | some r => r
    | none => p.rel_directions.map (ftr question entity_ids)
  let rel_combs := make_combs rels false
  let store := fun qseq =>
    wikiParserCall search_join (p.rels_from_query ++ p.answer_ent) qseq
      p.filter_final (p.order_final.map (fun q => FEnt.tup q.1 q.2)) none
  query_loop store p.query_sequence query_info.return_if_found
    (prod3 entity_combs type_combs rel_combs)

/-- Embedding of QueryGenerator.find_candidate_answers
(query_generator.py lines 169-200), parametrized by the query parser
(applied to a relation option and a template; question, entity and
type identifiers are fixed for the call).  With relations from the
template matcher, the loop keeps the LAST slot-count-matching template
whose rel_dirs equal the supplied directions (the loop overwrites
without break) and uses it, or yields no candidates.  Without them,
templates are tried in order with a short-circuit on the first
non-empty result; if all fail, templates[0] is read (IndexError when
the filtered list is empty) and the first alternative template is used
unconditionally. -/
def find_candidate_answers
    (qp : Option (List (List (List Char))) → QueryTemplate → List (List PyVal))
    (templates0 : List QueryTemplate)
    (entity_ids type_ids : List (List (List Char)))
    (rels_from_template : Option (List (List (List Char))))
    (rel_dirs_from_template : List (List Char)) :
    Except String (List (List PyVal)) :=
  let templates := templates0.filter
    (fun t => t.entities_and_types_num = [entity_ids.length, type_ids.length])
  match rels_from_template with
  | some rels =>
    let query_template := templates.foldl
      (fun acc t => if t.rel_dirs = rel_dirs_from_template then some t else acc)
      none
    match query_template with
    | some t => Except.ok (qp (some rels) t)
    | none => Except.ok []
  | none =>
    match templates.find? (fun t => !(qp none t).isEmpty) with
    | some t => Except.ok (qp none t)
    | none =>
      match templates with
      | [] => Except.error "IndexError"
      | t0 :: _ =>
        match t0.alternative_templates with
        | [] => Except.ok []
        | alt :: _ => Except.ok (qp none alt)

/-- The one-template scenario of the end-to-end property: the pattern
?ent P31 T1 . ?ent R1 E1 in its SPARQL surface form, one join stage,
no ranked relations, no alternatives. -/
def c1Template : QueryTemplate :=
  QueryTemplate.mk
    "SELECT ?ent WHERE \x7b ?ent wdt:P31 wd:T1 . ?ent wdt:R1 wd:E1 \x7d".data
    [0, 0] [1, 1] false [] [1, 1] []

/-- A whitespace tokenizer standing in for nltk.word_tokenize on the
concrete questions used in the scenarios (which contain no
punctuation). -/
def wsTokenize (q : List Char) : List (List Char) :=
  pySplit " ".data q

/-- A store backend whose join returns exactly one row binding the
answer variable to the given value. -/
def oneRowStore (v : List Char) :
    List (List (List (List Char))) → List (List (List Char × List Char)) :=
  fun _ => [[("?ent".data, v)]]

example :
    queryParser wsTokenize (oneRowStore "Q777".data) (fun _ _ _ => [])
      "who are you".data c1Template [["Q1".data]] [["T5".data]]
      (some [["P100".data]]) =
    Except.ok ([[PyVal.s "P100".data, PyVal.s "Q777".data]], 1) := rfl

/-- Membership after insertion: exactly the inserted element plus the
residents. -/
theorem pyInsertB_perm {α : Type} (key : α → Nat) (x : α) (l : List α) :
    (pyInsertB key x l).Perm (x :: l) := by
  induction l with
  | nil => simp [pyInsertB]
  | cons y ys ih =>
    simp only [pyInsertB]
    by_cases h : key y < key x
    · rw [if_pos h]
      exact (ih.cons y).trans (List.Perm.swap x y ys)
    · rw [if_neg h]

/-- The stable sort is a permutation of its input. -/
theorem pySorted_perm {α : Type} (key : α → Nat) (l : List α) :
    (pySorted key l).Perm l := by
  induction l with
  | nil => simp [pySorted]
  | cons x xs ih =>
    exact (pyInsertB_perm key x (pySorted key xs)).trans (ih.cons x)

/-- Insertion preserves sortedness by the key. -/
theorem pyInsertB_pairwise {α : Type} (key : α → Nat) (x : α) (l : List α)
    (h : l.Pairwise (fun a b => key a ≤ key b)) :
    (pyInsertB key x l).Pairwise (fun a b => key a ≤ key b) := by
  induction l with
  | nil => simp [pyInsertB]
  | cons y ys ih =>
    rw [List.pairwise_cons] at h
    simp only [pyInsertB]
    by_cases hc : key y < key x
    · rw [if_pos hc]
      rw [List.pairwise_cons]
      constructor
      · intro a ha
        have hm := (pyInsertB_perm key x ys).mem_iff.mp ha
        rw [List.mem_cons] at hm
        rcases hm with rfl | hmem
        · exact le_of_lt hc
        · exact h.1 a hmem
      · exact ih h.2
    · rw [if_neg hc]
      rw [List.pairwise_cons]
      refine ⟨?_, List.pairwise_cons.mpr h⟩
      intro a ha
      rw [List.mem_cons] at ha
      rcases ha with rfl | hmem
      · omega
      · exact le_trans (by omega) (h.1 a hmem)

/-- The stable sort is sorted by the key. -/
theorem pySorted_pairwise {α : Type} (key : α → Nat) (l : List α) :
    (pySorted key l).Pairwise (fun a b => key a ≤ key b) := by
  induction l with
  | nil => simp [pySorted]
  | cons x xs ih => exact pyInsertB_pairwise key x _ ih

/-- Every element of a cross-product tuple comes from one of the input
lists. -/
theorem mem_pyProduct_flat {α : Type} :
    ∀ (ls : List (List α)) (x : List α), x ∈ pyProduct ls →
      ∀ e ∈ x, ∃ l ∈ ls, e ∈ l := by
  intro ls
  induction ls with
  | nil =>
    intro x hx e he
    simp [pyProduct] at hx
    subst hx
    simp at he
  | cons l rest ih =>
    intro x hx e he
    simp only [pyProduct, List.mem_flatMap, List.mem_map] at hx
    rcases hx with ⟨a, ha, c, hc, rfl⟩
    rw [List.mem_cons] at he
    rcases he with rfl | he
    · exact ⟨l, List.mem_cons_self _ _, ha⟩
    · rcases ih c hc e he with ⟨l2, hl2, he2⟩
      exact ⟨l2, List.mem_cons_of_mem _ hl2, he2⟩

/-- A pick yields an element of the list and a sublist of residues. -/
theorem picks_mem {α : Type} :
    ∀ (l : List α) (p : α × List α), p ∈ picks l →
      p.1 ∈ l ∧ ∀ e ∈ p.2, e ∈ l := by
  intro l
  induction l with
  | nil => intro p hp; simp [picks] at hp
  | cons x xs ih =>
    intro p hp
    simp only [picks, List.mem_cons, List.mem_map] at hp
    rcases hp with rfl | ⟨q, hq, rfl⟩
    · exact ⟨List.mem_cons_self _ _, fun e he => List.mem_cons_of_mem _ he⟩
    · rcases ih q hq with ⟨h1, h2⟩
      refine ⟨List.mem_cons_of_mem _ h1, ?_⟩
      intro e he
      rw [List.mem_cons] at he
      rcases he with rfl | he
      · exact List.mem_cons_self _ _
      · exact List.mem_cons_of_mem _ (h2 e he)

/-- Every element of a permutation is an element of the original
list. -/
theorem mem_pyPermutationsAux_sub {α : Type} :
    ∀ (fuel : Nat) (y x : List α), x ∈ pyPermutationsAux fuel y →
      ∀ e ∈ x, e ∈ y := by
  intro fuel
  induction fuel with
  | zero =>
    intro y x hx e he
    cases y with
    | nil => simp [pyPermutationsAux] at hx; subst hx; simp at he
    | cons a as => simp [pyPermutationsAux] at hx; subst hx; simp at he
  | succ f ih =>
    intro y x hx e he
    cases y with
    | nil => simp [pyPermutationsAux] at hx; subst hx; simp at he
    | cons a as =>
      simp only [pyPermutationsAux, List.mem_flatMap, List.mem_map] at hx
      rcases hx with ⟨p, hp, c, hc, rfl⟩
      rw [List.mem_cons] at he
      rcases he with rfl | he
      · exact (picks_mem _ p hp).1
      · exact (picks_mem _ p hp).2 e (ih p.2 c hc e he)

/-- Every element of a pyPermutations output is an element of the
input. -/
theorem mem_pyPermutations_sub {α : Type} (y x : List α)
    (hx : x ∈ pyPermutations y) : ∀ e ∈ x, e ∈ y :=
  mem_pyPermutationsAux_sub y.length y x hx

/-- The head of a list sorted by a numeric component bounds every
element. -/
theorem head_min_of_pairwise {α : Type} (f : α → Nat) (c : α) (rest : List α)
    (h : (c :: rest).Pairwise (fun a b => f a ≤ f b)) :
    ∀ x ∈ c :: rest, f c ≤ f x := by
  intro x hx
  rw [List.mem_cons] at hx
  rcases hx with rfl | hx
  · exact le_refl _
  · exact List.rel_of_pairwise_cons h hx

/-- C2 (code_bug evidence): WikiParser.find_label raises NameError on
every input, because its first guard evaluates type(a) for an unbound
name a (wiki_parser.py line 82); the claim (and the spec) promise the
sentinel string Not Found with no exception on no-match inputs. -/
theorem find_label_always_raises
    (st : List Char → List Char → List Char →
      List (List Char × List Char × List Char) × Nat)
    (entity : List Char) :
    find_label st entity = Except.error "NameError: name a is not defined" :=
  rfl

/-- C9: get_entity_ids maps each mention through the linker and keeps
at most the first fifteen ranked identifiers — the slice bound 15 is
hard-coded and the entities_to_leave parameter plays no role in this
function (it is not an argument of the embedding at all). -/
theorem get_entity_ids_take15
    (linker_entities linker_types : List Char → List (List Char) × List ℚ)
    (entities : List (List Char)) :
    get_entity_ids linker_entities linker_types entities "entities".data =
      Except.ok (entities.map (fun e => (linker_entities e).1.take 15)) ∧
    get_entity_ids linker_entities linker_types entities "types".data =
      Except.ok (entities.map (fun e => (linker_types e).1.take 15)) ∧
    ∀ e : List Char,
      ((linker_entities e).1.take 15).length ≤ 15 ∧
      (linker_entities e).1.take 15 <+: (linker_entities e).1 := by
  refine ⟨rfl, ?_, ?_⟩
  · have h : ("types".data = "entities".data) = False := by
      simp
    simp [get_entity_ids]
  · intro e
    exact ⟨by simp [List.length_take], List.take_prefix _ _⟩

/-- C10: when the initial join of the store adapter produces no rows,
WikiParser.__call__ returns the empty list and the unknown-triplet,
filter, order and aggregation stages are all skipped — in particular a
COUNT-aggregate projection over an empty join yields the empty list,
not a zero-count row, because the projection also sits inside the
guard on a non-empty join. -/
theorem wikiParserCall_empty_join {σ υ : Type}
    (search_join : σ → List (List (List Char × List Char)))
    (what_return : List (List Char)) (query : σ)
    (unknown : List υ) (fes : List FEnt)
    (order : Option (List (List Char × List Char)))
    (h : search_join query = []) :
    wikiParserCall search_join what_return query unknown fes order =
      Except.ok [] := by
  unfold wikiParserCall
  rw [h]

theorem wikiParserCall_empty_join_witness :
    wikiParserCall (fun _ : Unit => ([] : List (List (List Char × List Char))))
      ["COUNT(?ent)".data] () ([] : List Unit) [] none = Except.ok [] :=
  wikiParserCall_empty_join _ _ _ _ _ _ rfl

/-- C6: every combination produced by make_combs carries as its
trailing element (the second component of the pair encoding) the sum
of the 0-based ranks of its identifiers in their source candidate
lists, and the output is sorted by non-decreasing aggregate rank; this
holds for both values of permut. -/
theorem make_combs_sorted_and_rank_sums
    (entity_ids : List (List (List Char))) (permut : Bool) :
    (make_combs entity_ids permut).Pairwise (fun a b => a.2 ≤ b.2) ∧
    ∀ c ∈ make_combs entity_ids permut,
      ∃ pairs : List (List Char × Nat),
        c.1 = pairs.map Prod.fst ∧ c.2 = (pairs.map Prod.snd).sum ∧
        ∀ pr ∈ pairs, ∃ el ∈ entity_ids, el[pr.2]? = some pr.1 := by
  constructor
  · rw [make_combs]
    rw [List.pairwise_map]
    exact pySorted_pairwise sumRanks _
  · intro c hc
    rw [make_combs] at hc
    rw [List.mem_map] at hc
    rcases hc with ⟨comb, hcomb, rfl⟩
    refine ⟨comb, rfl, rfl, ?_⟩
    intro pr hpr
    have hperm := (pySorted_perm sumRanks _).mem_iff.mp hcomb
    set annotated :=
      entity_ids.map (fun el => el.enum.map (fun p => (p.2, p.1))) with hann
    have hsrc : ∃ al ∈ annotated, pr ∈ al := by
      by_cases hpm : permut
      · rw [if_pos hpm] at hperm
        rw [List.mem_flatMap] at hperm
        rcases hperm with ⟨y, hy, hcy⟩
        have hsub := mem_pyPermutations_sub y comb hcy pr hpr
        exact mem_pyProduct_flat annotated y hy pr hsub
      · rw [if_neg hpm] at hperm
        exact mem_pyProduct_flat annotated comb hperm pr hpr
    rcases hsrc with ⟨al, hal, hpral⟩
    rw [hann, List.mem_map] at hal
    rcases hal with ⟨el, hel, rfl⟩
    rw [List.mem_map] at hpral
    rcases hpral with ⟨q, hq, rfl⟩
    refine ⟨el, hel, ?_⟩
    exact List.mem_enum_iff_getElem?.mp hq

theorem make_combs_sorted_witness :
    ((make_combs [["A".data, "B".data]] false).Pairwise (fun a b => a.2 ≤ b.2)) ∧
    (∃ pairs : List (List Char × Nat),
      (["B".data], 1).1 = pairs.map Prod.fst ∧
      (["B".data], 1).2 = (pairs.map Prod.snd).sum ∧
      ∀ pr ∈ pairs, ∃ el ∈ [["A".data, "B".data]], el[pr.2]? = some pr.1) :=
  ⟨(make_combs_sorted_and_rank_sums [["A".data, "B".data]] false).1,
   (make_combs_sorted_and_rank_sums [["A".data, "B".data]] false).2
     (["B".data], 1) (by decide)⟩

/-- The last-match fold of find_candidate_answers (lines 181-183 of
query_generator.py): folding if-matched-keep over a list computes the
first match of the reversed list, i.e. the last match. -/
theorem foldl_last_match {α : Type} (q : α → Prop) [DecidablePred q] :
    ∀ (l : List α) (acc : Option α),
      l.foldl (fun acc t => if q t then some t else acc) acc =
        (match l.reverse.find? (fun t => decide (q t)) with
         | some t => some t
         | none => acc) := by
  intro l
  induction l with
  | nil => intro acc; rfl
  | cons x xs ih =>
    intro acc
    rw [List.foldl_cons, ih, List.reverse_cons, List.find?_append]
    cases hf : xs.reverse.find? (fun t => decide (q t)) with
    | some t => simp [hf, Option.orElse]
    | none =>
      simp only [hf, Option.orElse, Option.none_orElse]
      by_cases hp : q x
      · simp [List.find?, hp]
      · simp [List.find?, hp]

/-- A singleton filter pins down the unique match, hence also the
first match. -/
theorem find?_of_filter_singleton {α : Type} (p : α → Bool) :
    ∀ (l : List α) (t : α), l.filter p = [t] → l.find? p = some t := by
  intro l
  induction l with
  | nil => intro t ht; simp at ht
  | cons x xs ih =>
    intro t ht
    by_cases hp : p x
    · rw [List.filter_cons_of_pos hp] at ht
      have hx : x = t ∧ xs.filter p = [] := by
        constructor
        · exact (List.cons_eq_cons.mp ht).1
        · exact (List.cons_eq_cons.mp ht).2
      simp only [List.find?_cons, hp, if_true]
      rw [hx.1]
    · rw [List.filter_cons_of_neg hp] at ht
      simp only [List.find?_cons, hp, if_false]
      exact ih t ht

/-- A template with no alternatives, used in concrete scenarios. -/
def altTemplate : QueryTemplate :=
  QueryTemplate.mk "alt".data [] [1] false ["forw".data] [0, 0] []

/-- A primary template whose alternative list starts with
altTemplate. -/
def primTemplate : QueryTemplate :=
  QueryTemplate.mk "prim".data [] [1] true [] [0, 0] [altTemplate]

/-- C4: with no relation-directions supplied, find_candidate_answers
iterates the slot-count-matching templates in declared order and
returns the output of the first one with a non-empty result; when
every primary template yields an empty result, it reads the first
filtered template and returns the output of its FIRST alternative
template unconditionally — an empty output is returned as-is and later
alternatives are never consulted (the conclusion does not depend on
alts). -/
theorem find_candidate_answers_no_rels
    (qp : Option (List (List (List Char))) → QueryTemplate → List (List PyVal))
    (templates0 : List QueryTemplate)
    (entity_ids type_ids : List (List (List Char)))
    (rel_dirs : List (List Char))
    (t0 : QueryTemplate) (rest : List QueryTemplate)
    (hfiltered : templates0.filter
        (fun t => t.entities_and_types_num = [entity_ids.length, type_ids.length])
        = t0 :: rest) :
    (∀ t, (t0 :: rest).find? (fun t => !(qp none t).isEmpty) = some t →
        find_candidate_answers qp templates0 entity_ids type_ids none rel_dirs =
          Except.ok (qp none t)) ∧
    ((t0 :: rest).find? (fun t => !(qp none t).isEmpty) = none →
      ∀ alt alts, t0.alternative_templates = alt :: alts →
        find_candidate_answers qp templates0 entity_ids type_ids none rel_dirs =
          Except.ok (qp none alt)) := by
  constructor
  · intro t ht
    unfold find_candidate_answers
    rw [hfiltered]
    simp only [ht]
  · intro hnone alt alts halt
    unfold find_candidate_answers
    rw [hfiltered]
    simp only [hnone, halt]

theorem find_candidate_answers_no_rels_witness :
    find_candidate_answers
      (fun _ t => if t.return_if_found then [[PyVal.s "A".data]] else [])
      [primTemplate] [] [] none [] = Except.ok [[PyVal.s "A".data]] :=
  (find_candidate_answers_no_rels
    (fun _ t => if t.return_if_found then [[PyVal.s "A".data]] else [])
    [primTemplate] [] [] [] primTemplate [] rfl).1 primTemplate rfl

/-- C7: with relation-directions supplied by the template matcher,
find_candidate_answers yields no candidates when no slot-count-matching
template declares the supplied directions, and produces candidates from
exactly the single matching template when there is exactly one; the
selection is a deterministic function of the filtered templates and the
directions (the embedding is a pure function).  The source loop keeps
the LAST match, which coincides with the unique match under the
uniqueness hypothesis. -/
theorem find_candidate_answers_with_rels
    (qp : Option (List (List (List Char))) → QueryTemplate → List (List PyVal))
    (templates0 : List QueryTemplate)
    (entity_ids type_ids : List (List (List Char)))
    (rels : List (List (List Char)))
    (rel_dirs : List (List Char)) :
    ((templates0.filter
        (fun t => t.entities_and_types_num = [entity_ids.length, type_ids.length])).filter
          (fun t => decide (t.rel_dirs = rel_dirs)) = [] →
      find_candidate_answers qp templates0 entity_ids type_ids (some rels) rel_dirs =
        Except.ok []) ∧
    (∀ t, (templates0.filter
        (fun t => t.entities_and_types_num = [entity_ids.length, type_ids.length])).filter
          (fun t => decide (t.rel_dirs = rel_dirs)) = [t] →
      find_candidate_answers qp templates0 entity_ids type_ids (some rels) rel_dirs =
        Except.ok (qp (some rels) t)) := by
  have hfold := foldl_last_match (fun t : QueryTemplate => t.rel_dirs = rel_dirs)
  constructor
  · intro hempty
    unfold find_candidate_answers
    simp only [hfold _ none]
    have hnone : (templates0.filter
        (fun t => t.entities_and_types_num = [entity_ids.length, type_ids.length])).reverse.find?
          (fun t => decide (t.rel_dirs = rel_dirs)) = none := by
      rw [List.find?_eq_none]
      intro x hx
      intro hpx
      have hmem : x ∈ (templates0.filter
          (fun t => t.entities_and_types_num = [entity_ids.length, type_ids.length])).filter
            (fun t => decide (t.rel_dirs = rel_dirs)) := by
        rw [List.mem_filter]
        exact ⟨List.mem_reverse.mp hx, hpx⟩
      rw [hempty] at hmem
      simp at hmem
    simp only [hnone]
  · intro t huniq
    unfold find_candidate_answers
    simp only [hfold _ none]
    have hsingle : (templates0.filter
        (fun t => t.entities_and_types_num = [entity_ids.length, type_ids.length])).reverse.find?
          (fun t => decide (t.rel_dirs = rel_dirs)) = some t := by
      apply find?_of_filter_singleton
      rw [List.filter_reverse, huniq]
      rfl
    simp only [hsingle]

theorem find_candidate_answers_with_rels_witness :
    find_candidate_answers
      (fun _ t => if t.return_if_found then [[PyVal.s "A".data]] else [])
      [primTemplate, altTemplate] [] [] (some [["P100".data]]) ["forw".data] =
      Except.ok [] :=
  (find_candidate_answers_with_rels
    (fun _ t => if t.return_if_found then [[PyVal.s "A".data]] else [])
    [primTemplate, altTemplate] [] [] [["P100".data]] ["forw".data]).2
    altTemplate rfl

/-- make_combs output is sorted by non-decreasing aggregate rank. -/
theorem make_combs_pairwise (entity_ids : List (List (List Char))) (permut : Bool) :
    (make_combs entity_ids permut).Pairwise (fun a b => a.2 ≤ b.2) := by
  rw [make_combs]
  rw [List.pairwise_map]
  exact pySorted_pairwise sumRanks _

/-- Short-circuit behaviour of the combination loop: with
return_if_found set and a first combination whose store call returns a
non-empty list, the loop stops after exactly one store invocation and
returns the outputs of that combination, prefixed by its rel
identifiers. -/
theorem query_loop_short_circuit
    (store : List (List (List (List Char))) → Except String (List (List PyVal)))
    (qseq : List (List (List (List Char))))
    (c : (List (List Char) × Nat) × (List (List Char) × Nat) ×
      (List (List Char) × Nat))
    (rest : List ((List (List Char) × Nat) × (List (List Char) × Nat) ×
      (List (List Char) × Nat)))
    (out : List (List PyVal))
    (hstore : store (qseq.map (fun elem => fill_query elem c.1 c.2.1 c.2.2)) =
      Except.ok out)
    (hne : out ≠ []) :
    query_loop store qseq true (c :: rest) =
      Except.ok (out.map (fun o => c.2.2.1.map PyVal.s ++ o), 1) := by
  obtain ⟨ec, tc, rc⟩ := c
  simp only [query_loop]
  rw [hstore]
  cases out with
  | nil => exact absurd rfl hne
  | cons a as => rfl

/-- query_parser is its preparation stage followed by the combination
loop over the product of the three sorted combination lists. -/
theorem queryParser_eq_loop
    (tokenize : List Char → List (List Char))
    (search_join : List (List (List (List Char))) →
      List (List (List Char × List Char)))
    (ftr : List Char → List (List (List Char)) → (List Char × Nat) →
      List (List Char))
    (question : List Char) (query_info : QueryTemplate)
    (entity_ids type_ids : List (List (List Char)))
    (rels : List (List (List Char)))
    (p : PreparedQuery)
    (hp : prepareQuery tokenize question query_info = Except.ok p) :
    queryParser tokenize search_join ftr question query_info entity_ids type_ids
        (some rels) =
      query_loop
        (fun qseq => wikiParserCall search_join (p.rels_from_query ++ p.answer_ent)
          qseq p.filter_final (p.order_final.map (fun q => FEnt.tup q.1 q.2)) none)
        p.query_sequence query_info.return_if_found
        (prod3 (make_combs entity_ids true) (make_combs type_ids false)
          (make_combs rels false)) := by
  unfold queryParser
  rw [hp]
  rfl

/-- C3: when a template declares return_if_found and the first
enumerated (entity, type, relation) combination — which has the lowest
aggregate rank sum of all enumerated combinations — yields a non-empty
store result, query_parser returns immediately with that result and
the store adapter is invoked exactly once, so no later combination
ever reaches it. -/
theorem queryParser_return_if_found_short_circuit
    (tokenize : List Char → List (List Char))
    (search_join : List (List (List (List Char))) →
      List (List (List Char × List Char)))
    (ftr : List Char → List (List (List Char)) → (List Char × Nat) →
      List (List Char))
    (question : List Char) (query_info : QueryTemplate)
    (entity_ids type_ids : List (List (List Char)))
    (rels : List (List (List Char)))
    (p : PreparedQuery)
    (hp : prepareQuery tokenize question query_info = Except.ok p)
    (hrif : query_info.return_if_found = true)
    (c : (List (List Char) × Nat) × (List (List Char) × Nat) ×
      (List (List Char) × Nat))
    (rest : List ((List (List Char) × Nat) × (List (List Char) × Nat) ×
      (List (List Char) × Nat)))
    (hcombs : prod3 (make_combs entity_ids true) (make_combs type_ids false)
        (make_combs rels false) = c :: rest)
    (out : List (List PyVal))
    (hstore : wikiParserCall search_join (p.rels_from_query ++ p.answer_ent)
        (p.query_sequence.map (fun elem => fill_query elem c.1 c.2.1 c.2.2))
        p.filter_final (p.order_final.map (fun q => FEnt.tup q.1 q.2)) none =
      Except.ok out)
    (hne : out ≠ []) :
    queryParser tokenize search_join ftr question query_info entity_ids type_ids
        (some rels) =
      Except.ok (out.map (fun o => c.2.2.1.map PyVal.s ++ o), 1) ∧
    ∀ x ∈ c :: rest, c.1.2 + c.2.1.2 + c.2.2.2 ≤ x.1.2 + x.2.1.2 + x.2.2.2 := by
  constructor
  · rw [queryParser_eq_loop tokenize search_join ftr question query_info
      entity_ids type_ids rels p hp, hrif, hcombs]
    exact query_loop_short_circuit _ _ c rest out hstore hne
  · cases hE : make_combs entity_ids true with
    | nil =>
      rw [hE] at hcombs
      simp [prod3] at hcombs
    | cons ea eas =>
    cases hT : make_combs type_ids false with
    | nil =>
      rw [hT] at hcombs
      simp only [prod3, List.flatMap_nil] at hcombs
      rw [List.flatMap_eq_nil_iff.mpr (fun x _ => rfl)] at hcombs
      exact absurd hcombs (by simp)
    | cons tb tbs =>
    cases hR : make_combs rels false with
    | nil =>
      rw [hR] at hcombs
      simp only [prod3, List.map_nil] at hcombs
      rw [List.flatMap_eq_nil_iff.mpr
        (fun x _ => List.flatMap_eq_nil_iff.mpr (fun y _ => rfl))] at hcombs
      exact absurd hcombs (by simp)
    | cons rc rcs =>
      have hhead : c = (ea, tb, rc) := by
        rw [hE, hT, hR] at hcombs
        have h0 := congrArg List.head? hcombs
        simp [prod3] at h0
        exact h0.symm
      intro x hx
      rw [← hcombs] at hx
      have hx1 : x.1 ∈ make_combs entity_ids true ∧
          x.2.1 ∈ make_combs type_ids false ∧
          x.2.2 ∈ make_combs rels false := by
        simp only [prod3, List.mem_flatMap, List.mem_map] at hx
        rcases hx with ⟨a, ha, b, hb, cc, hcc, rfl⟩
        exact ⟨ha, hb, hcc⟩
      have hminE : ea.2 ≤ x.1.2 := by
        have hpw := make_combs_pairwise entity_ids true
        rw [hE] at hpw
        exact head_min_of_pairwise (fun z => z.2) ea eas hpw x.1 (hE ▸ hx1.1)
      have hminT : tb.2 ≤ x.2.1.2 := by
        have hpw := make_combs_pairwise type_ids false
        rw [hT] at hpw
        exact head_min_of_pairwise (fun z => z.2) tb tbs hpw x.2.1 (hT ▸ hx1.2.1)
      have hminR : rc.2 ≤ x.2.2.2 := by
        have hpw := make_combs_pairwise rels false
        rw [hR] at hpw
        exact head_min_of_pairwise (fun z => z.2) rc rcs hpw x.2.2 (hR ▸ hx1.2.2)
      rw [hhead]
      simp only []
      omega

/-- The C3 scenario template: identical to c1Template but with
return_if_found set. -/
def c3Template : QueryTemplate :=
  QueryTemplate.mk
    "SELECT ?ent WHERE \x7b ?ent wdt:P31 wd:T1 . ?ent wdt:R1 wd:E1 \x7d".data
    [0, 0] [1, 1] true [] [1, 1] []

theorem queryParser_return_if_found_witness :
    queryParser wsTokenize (oneRowStore "Q777".data) (fun _ _ _ => [])
      "who are you".data c3Template [["Q1".data, "Q2".data]] [["T5".data]]
      (some [["P100".data]]) =
      Except.ok ([[PyVal.s "P100".data, PyVal.s "Q777".data]], 1) :=
  (queryParser_return_if_found_short_circuit wsTokenize (oneRowStore "Q777".data)
    (fun _ _ _ => []) "who are you".data c3Template [["Q1".data, "Q2".data]]
    [["T5".data]] [["P100".data]] _ rfl rfl
    ((["Q1".data], 0), (["T5".data], 0), (["P100".data], 0))
    [((["Q2".data], 1), (["T5".data], 0), (["P100".data], 0))] rfl
    [[PyVal.s "Q777".data]] rfl (by decide)).1

/-- C1 counterexample: in the single-template scenario of the claim
(pattern ?ent P31 T1 . ?ent R1 E1, entity candidates Q1, type
candidates T5, relation candidates P100, a store join returning one
row binding ?ent to Q777), query_parser returns exactly one candidate
output — but its prefix is only the relation combination P100 (the
source prepends combs[2][:-1] at line 268), not the full binding
combination Q1, T5, P100 promised by the claim. -/
theorem queryParser_prefix_counterexample :
    queryParser wsTokenize (oneRowStore "Q777".data) (fun _ _ _ => [])
        "who are you".data c1Template [["Q1".data]] [["T5".data]]
        (some [["P100".data]]) =
      Except.ok ([[PyVal.s "P100".data, PyVal.s "Q777".data]], 1) ∧
    [PyVal.s "P100".data, PyVal.s "Q777".data] ≠
      [PyVal.s "Q1".data, PyVal.s "T5".data, PyVal.s "P100".data,
        PyVal.s "Q777".data] :=
  ⟨rfl, by decide⟩

/-- C1 (amended): in that scenario query_parser returns exactly one
candidate output, whose prefix (the elements preceding the store row
value) is the relation combination [P100] — the slot values of the
relation slots only — followed by the row value; and it invokes the
store exactly once.  The entity and type identifiers of the binding
combination are not part of the output. -/
theorem queryParser_one_row_output (v : List Char) :
    queryParser wsTokenize (oneRowStore v) (fun _ _ _ => [])
        "who are you".data c1Template [["Q1".data]] [["T5".data]]
        (some [["P100".data]]) =
      Except.ok ([[PyVal.s "P100".data, PyVal.s v]], 1) := rfl

/-- The ordinal normalization of extract_number as a standalone
function. -/
def ordinal3 (x : List Char) : List Char :=
  pyReplace (pyReplace (pyReplace x "1st".data "1".data) "2nd".data "2".data)
    "3rd".data "3".data

/-- A token begins with a digit. -/
def startsDigit (t : List Char) : Bool :=
  match t with
  | [] => false
  | c :: _ => c.isDigit

/-- On token lists without empty tokens, the digit-token scan is the
first token beginning with a digit (or the empty string). -/
theorem firstDigitTok_eq (toks : List (List Char))
    (htok : ∀ t ∈ toks, t ≠ []) :
    firstDigitTok toks = Except.ok ((toks.find? startsDigit).getD []) := by
  induction toks with
  | nil => rfl
  | cons t ts ih =>
    cases t with
    | nil => exact absurd rfl (htok _ (List.mem_cons_self _ _))
    | cons c cs =>
      by_cases hc : c.isDigit
      · simp [firstDigitTok, hc, List.find?_cons, startsDigit]
      · simp only [firstDigitTok, hc, List.find?_cons, startsDigit,
          if_false, Bool.false_eq_true]
        rw [ih (fun u hu => htok u (List.mem_cons_of_mem _ hu))]

/-- C8 counterexample: the final normalization of extract_number is
Python strip(".0"), which removes every leading and trailing character
from the set containing the dot and the zero — on the token 10 the
trailing zero is removed and the function returns 1, while the claim
(trailing .0 only, nothing else removed) demands 10. -/
theorem extract_number_strip_counterexample :
    extract_number ["10".data] "has 10 cats".data = Except.ok "1".data ∧
    "1".data ≠ "10".data :=
  ⟨rfl, by decide⟩

/-- C8 (amended): extract_number takes the scientific-notation match
over the whole question when there is one, otherwise the first token
beginning with a digit (empty string when none); it rewrites the
ordinal substrings 1st, 2nd, 3rd to their digits, and then strips all
leading and trailing characters of the set containing the dot and the
zero (Python strip(".0") set semantics — not merely one trailing .0
substring); in particular the claimed 2nd-place example returns 2.
The hypothesis excludes empty tokens, on which the Python source
raises IndexError. -/
theorem extract_number_characterization
    (question_tokens : List (List Char)) (question : List Char)
    (htok : ∀ t ∈ question_tokens, t ≠ []) :
    (∀ m, findSci question = some m →
        extract_number question_tokens question =
          Except.ok (pyStrip ['.', '0'] (ordinal3 m))) ∧
    (findSci question = none →
        extract_number question_tokens question =
          Except.ok (pyStrip ['.', '0']
            (ordinal3 ((question_tokens.find? startsDigit).getD [])))) ∧
    extract_number ["2nd".data, "place".data] "finished 2nd place".data =
      Except.ok "2".data := by
  refine ⟨?_, ?_, rfl⟩
  · intro m hm
    simp only [extract_number, hm, ordinal3]
    rfl
  · intro hn
    simp only [extract_number, hn, firstDigitTok_eq question_tokens htok, ordinal3]
    rfl

theorem extract_number_characterization_witness :
    extract_number ["2nd".data, "place".data] "finished 2nd place".data =
      Except.ok (pyStrip ['.', '0']
        (ordinal3 (([ "2nd".data, "place".data].find? startsDigit).getD []))) :=
  (extract_number_characterization ["2nd".data, "place".data]
    "finished 2nd place".data (by decide)).2.1 rfl

/-!
Machinery for the fill_query round-trip analysis (claim C5).  The
joined query string is a two-level join: single space inside a triple,
double space between triples.  Patterns that contain no space can only
match inside a single token, so string replace distributes over the
join; the splits at the end then invert the joins when every token is
non-empty and space-free.
-/

/-- Map a function over every token of a triple grid. -/
def gridMap (f : List Char → List Char) (Q : List (List (List Char))) :
    List (List (List Char)) :=
  Q.map (List.map f)

/-- The joined query string of fill_query: triples joined by a single
space, the triple list joined by a double space. -/
def join2 (Q : List (List (List Char))) : List Char :=
  pyJoin [' ', ' '] (Q.map (pyJoin [' ']))

/-- The placeholder patterns with single-digit indices, for all three
slot kinds. -/
def placeholderPats : List (List Char) :=
  (List.range 9).flatMap
    (fun i => [placeholder 'E' (i + 1), placeholder 'T' (i + 1),
               placeholder 'R' (i + 1)])

/-- The space-free namespace-prefix patterns of fill_query (the fourth
table entry carries a leading space; its space-free core p: is listed
here instead, since an occurrence of the spaced pattern in the joined
string forces an occurrence of the core in a token). -/
def corePats : List (List Char) :=
  ["P0".data, "wd:".data, "wdt:".data, "p:".data, "ps:".data, "pq:".data]

/-- All patterns a plain token or an identifier must avoid for the
substitution to be collision-free. -/
def cleanPats : List (List Char) :=
  corePats ++ placeholderPats

/-- A clean token or identifier: non-empty, space-free, and free of
every namespace-prefix pattern and every single-digit placeholder
pattern. -/
def cleanTok (t : List Char) : Bool :=
  !t.isEmpty && t.all (fun c => c ≠ ' ') && cleanPats.all (fun p => !occursB p t)

/-- Index-based placeholder substitution — the specification-side
reading of slot filling: a two-character token E/T/R followed by a
digit i in range is replaced by the i-th identifier of the matching
combination, everything else is untouched. -/
def substTok (ev tv rv : List (List Char)) (tok : List Char) : List Char :=
  match tok with
  | [x, d] =>
    let i := d.toNat - 48
    if 1 ≤ i ∧ i ≤ 9 ∧ d.isDigit then
      if x = 'E' then (if i ≤ ev.length then ev.getD (i - 1) tok else tok)
      else if x = 'T' then (if i ≤ tv.length then tv.getD (i - 1) tok else tok)
      else if x = 'R' then (if i ≤ rv.length then rv.getD (i - 1) tok else tok)
      else tok
    else tok
  | _ => tok

/-- A token of a C5 template: either clean or a single-digit
placeholder. -/
def cpTok (t : List Char) : Prop :=
  cleanTok t = true ∨
    ∃ x i, (x = 'E' ∨ x = 'T' ∨ x = 'R') ∧ 1 ≤ i ∧ i ≤ 9 ∧ t = placeholder x i

/-- Single-separator form of the boundary distribution. -/
theorem pyReplace_append_sep1 (pat rep : List Char) (d : Char) (hd : d ∉ pat)
    (a b : List Char) :
    pyReplace (a ++ d :: b) pat rep =
      pyReplace a pat rep ++ d :: pyReplace b pat rep :=
  pyReplace_append_sep pat rep d hd a.length a b (le_refl _)

/-- Distribution of Python replace over a run of spaces, for a
space-free pattern. -/
theorem pyReplace_append_spaces (pat rep : List Char) (hsp : ' ' ∉ pat) :
    ∀ sp : List Char, sp ≠ [] → (∀ c ∈ sp, c = ' ') → ∀ a b : List Char,
      pyReplace (a ++ sp ++ b) pat rep =
        pyReplace a pat rep ++ sp ++ pyReplace b pat rep := by
  intro sp
  induction sp with
  | nil => intro h; exact absurd rfl h
  | cons c sp' ih =>
    intro _ hall a b
    have hc : c = ' ' := hall c (List.mem_cons_self _ _)
    subst hc
    have h1 : a ++ (' ' :: sp') ++ b = a ++ ' ' :: (sp' ++ b) := by simp
    rw [h1, pyReplace_append_sep1 pat rep ' ' hsp a (sp' ++ b)]
    cases sp' with
    | nil => simp
    | cons c2 rest =>
      have hih := ih (by simp) (fun x hx => hall x (List.mem_cons_of_mem _ hx)) [] b
      rw [List.nil_append, pyReplace_nil, List.nil_append] at hih
      rw [hih]
      simp

/-- Distribution of Python replace over an all-space join, for a
space-free pattern: each piece is rewritten independently. -/
theorem pyReplace_pyJoin (pat rep : List Char) (hsp : ' ' ∉ pat)
    (sp : List Char) (hspne : sp ≠ []) (hall : ∀ c ∈ sp, c = ' ') :
    ∀ pieces, pyReplace (pyJoin sp pieces) pat rep =
      pyJoin sp (pieces.map (fun x => pyReplace x pat rep)) := by
  intro pieces
  induction pieces with
  | nil => simp [pyJoin, pyReplace_nil]
  | cons x rest ih =>
    cases rest with
    | nil => simp [pyJoin]
    | cons y rest2 =>
      show pyReplace (x ++ sp ++ pyJoin sp (y :: rest2)) pat rep = _
      rw [pyReplace_append_spaces pat rep hsp sp hspne hall x (pyJoin sp (y :: rest2)),
        ih]
      rfl

/-- An occurrence of a pattern that does not contain the separator
character lies entirely on one side of the separator. -/
theorem infix_sep_split (pat a b : List Char) (d : Char) (hd : d ∉ pat)
    (h : pat <:+: a ++ d :: b) : pat <:+: a ∨ pat <:+: b := by
  obtain ⟨u, v, huv⟩ := h
  by_cases h1 : u.length + pat.length ≤ a.length
  · left
    have hseg : pat = ((a ++ d :: b).take (u.length + pat.length)).drop u.length := by
      rw [← huv]
      have e1 : u ++ pat ++ v = (u ++ pat) ++ v := by simp
      rw [e1, show u.length + pat.length = (u ++ pat).length by simp,
        List.take_left, List.drop_left]
    rw [List.take_append_of_le_length h1] at hseg
    rw [hseg]
    exact ((List.drop_suffix _ _).isInfix).trans ((List.take_prefix _ _).isInfix)
  · by_cases h2 : a.length + 1 ≤ u.length
    · right
      have hseg : pat = ((a ++ d :: b).drop u.length).take pat.length := by
        rw [← huv]
        have e1 : u ++ pat ++ v = u ++ (pat ++ v) := by simp
        rw [e1, List.drop_left, List.take_left]
      have hdrop : (a ++ d :: b).drop u.length = b.drop (u.length - a.length - 1) := by
        conv_lhs =>
          rw [show a ++ d :: b = (a ++ [d]) ++ b by simp,
            show u.length = (a ++ [d]).length + (u.length - a.length - 1) by
              simp
              omega]
        rw [List.drop_append]
      rw [hdrop] at hseg
      rw [hseg]
      exact ((List.take_prefix _ _).isInfix).trans ((List.drop_suffix _ _).isInfix)
    · exfalso
      have hu : u.length ≤ a.length := by omega
      have hlt : a.length - u.length < pat.length := by omega
      have hd1 : (a ++ d :: b)[a.length]? = some d := by
        rw [List.getElem?_append_right (le_refl _)]
        simp
      have e : a ++ d :: b = u ++ (pat ++ v) := by rw [← huv]; simp
      rw [e, List.getElem?_append_right hu, List.getElem?_append] at hd1
      rw [if_pos hlt] at hd1
      exact hd (List.getElem?_mem hd1)

/-- An occurrence of a space-free pattern lies on one side of a run of
spaces. -/
theorem infix_split_spaces (pat : List Char) (hsp : ' ' ∉ pat) :
    ∀ sp : List Char, sp ≠ [] → (∀ c ∈ sp, c = ' ') → ∀ a b : List Char,
      pat <:+: a ++ sp ++ b → pat <:+: a ∨ pat <:+: b := by
  intro sp
  induction sp with
  | nil => intro h; exact absurd rfl h
  | cons c sp' ih =>
    intro _ hall a b hocc
    have hc : c = ' ' := hall c (List.mem_cons_self _ _)
    subst hc
    rw [show a ++ (' ' :: sp') ++ b = a ++ ' ' :: (sp' ++ b) by simp] at hocc
    rcases infix_sep_split pat a (sp' ++ b) ' ' hsp hocc with h1 | h1
    · exact Or.inl h1
    · cases sp' with
      | nil => exact Or.inr h1
      | cons c2 rest =>
        have h2 : pat <:+: [] ++ (c2 :: rest) ++ b := by simpa using h1
        rcases ih (by simp) (fun x hx => hall x (List.mem_cons_of_mem _ hx)) [] b h2
          with h3 | h3
        · rw [List.infix_nil] at h3
          subst h3
          exact Or.inl (List.nil_infix)
        · exact Or.inr h3

/-- An occurrence of a non-empty space-free pattern in an all-space
join lies inside one of the pieces. -/
theorem infix_pyJoin_localize (pat : List Char) (hne : pat ≠ []) (hsp : ' ' ∉ pat)
    (sp : List Char) (hspne : sp ≠ []) (hall : ∀ c ∈ sp, c = ' ') :
    ∀ pieces, pat <:+: pyJoin sp pieces → ∃ p ∈ pieces, pat <:+: p := by
  intro pieces
  induction pieces with
  | nil =>
    intro h
    rw [show pyJoin sp [] = [] from rfl, List.infix_nil] at h
    exact absurd h hne
  | cons x rest ih =>
    cases rest with
    | nil =>
      intro h
      exact ⟨x, List.mem_cons_self _ _, h⟩
    | cons y rest2 =>
      intro h
      rw [show pyJoin sp (x :: y :: rest2) = x ++ sp ++ pyJoin sp (y :: rest2)
        from rfl] at h
      rcases infix_split_spaces pat hsp sp hspne hall x (pyJoin sp (y :: rest2)) h
        with h1 | h1
      · exact ⟨x, List.mem_cons_self _ _, h1⟩
      · rcases ih h1 with ⟨p, hp, hpp⟩
        exact ⟨p, List.mem_cons_of_mem _ hp, hpp⟩

/-- Replace distributes over the two-level query join, rewriting every
token independently (space-free patterns). -/
theorem pyReplace_join2 (pat rep : List Char) (hsp : ' ' ∉ pat)
    (Q : List (List (List Char))) :
    pyReplace (join2 Q) pat rep =
      join2 (gridMap (fun t => pyReplace t pat rep) Q) := by
  rw [join2, join2, gridMap]
  rw [pyReplace_pyJoin pat rep hsp [' ', ' '] (by simp)
    (fun c hc => by simpa using hc) (Q.map (pyJoin [' ']))]
  rw [List.map_map, List.map_map]
  congr 1
  apply List.map_congr_left
  intro tr _
  exact pyReplace_pyJoin pat rep hsp [' '] (by simp)
    (fun c hc => by simpa using hc) tr

/-- A space-free pattern occurring in no token leaves the joined query
string unchanged. -/
theorem pyReplace_join2_id (pat rep : List Char) (hsp : ' ' ∉ pat)
    (Q : List (List (List Char)))
    (hQ : ∀ tr ∈ Q, ∀ t ∈ tr, ¬ pat <:+: t) :
    pyReplace (join2 Q) pat rep = join2 Q := by
  rw [pyReplace_join2 pat rep hsp Q, gridMap]
  congr 1
  calc Q.map (List.map fun t => pyReplace t pat rep)
      = Q.map (fun tr => tr) := by
        apply List.map_congr_left
        intro tr htr
        calc List.map (fun t => pyReplace t pat rep) tr
            = tr.map (fun t => t) := by
              apply List.map_congr_left
              intro t ht
              exact pyReplace_of_no_occurrence t pat rep (hQ tr htr t ht)
          _ = tr := List.map_id' tr
    _ = Q := List.map_id' Q

/-- The one spaced pattern of the prefix table: when its space-free
core occurs in no token, the spaced pattern does not occur in the
joined string at all, so the replace is the identity. -/
theorem pyReplace_join2_spaced_id (rep : List Char)
    (Q : List (List (List Char)))
    (hQ : ∀ tr ∈ Q, ∀ t ∈ tr, ¬ "p:".data <:+: t) :
    pyReplace (join2 Q) " p:".data rep = join2 Q := by
  apply pyReplace_of_no_occurrence
  intro hocc
  have h2 : "p:".data <:+: join2 Q := by
    refine List.IsInfix.trans ?_ hocc
    exact ⟨[' '], [], by decide⟩
  rcases infix_pyJoin_localize "p:".data (by decide) (by decide) [' ', ' ']
      (by simp) (fun c hc => by simpa using hc) (Q.map (pyJoin [' '])) h2
    with ⟨piece, hpiece, hocc2⟩
  rw [List.mem_map] at hpiece
  obtain ⟨tr, htr, rfl⟩ := hpiece
  rcases infix_pyJoin_localize "p:".data (by decide) (by decide) [' ']
      (by simp) (fun c hc => by simpa using hc) tr hocc2
    with ⟨t, ht, hocc3⟩
  exact hQ tr htr t ht hocc3

/-- gridMap composes. -/
theorem gridMap_gridMap (f g : List Char → List Char)
    (Q : List (List (List Char))) :
    gridMap f (gridMap g Q) = gridMap (fun t => f (g t)) Q := by
  simp [gridMap, List.map_map, Function.comp]

/-- Single-digit placeholders written out as two characters. -/
theorem placeholder_two (X : Char) (n : Nat) (h1 : 1 ≤ n) (h9 : n ≤ 9) :
    placeholder X n = [X, Char.ofNat (48 + n)] := by
  interval_cases n <;> exact congrArg (X :: ·) (by decide)

/-- An infix of equal length two is an equality. -/
theorem infix_len2 (a b c d : Char) : [a, b] <:+: [c, d] ↔ a = c ∧ b = d := by
  constructor
  · intro h
    have hs := h.sublist
    have heq := hs.eq_of_length (by simp)
    injection heq with h1 h2
    injection h2 with h2 _
    exact ⟨h1, h2⟩
  · rintro ⟨rfl, rfl⟩
    exact List.infix_refl _

/-- Digit characters are injective on the single-digit range. -/
theorem digitChar_inj (n m : Nat) (h1 : 1 ≤ n) (h9 : n ≤ 9)
    (h1m : 1 ≤ m) (h9m : m ≤ 9) :
    (Char.ofNat (48 + n) = Char.ofNat (48 + m)) ↔ n = m := by
  interval_cases n <;> interval_cases m <;> decide

/-- A placeholder occurring inside a placeholder forces equality of
letter and index. -/
theorem placeholder_infix_placeholder (L X : Char) (n m : Nat)
    (h1n : 1 ≤ n) (h9n : n ≤ 9) (h1m : 1 ≤ m) (h9m : m ≤ 9)
    (h : placeholder L n <:+: placeholder X m) : L = X ∧ n = m := by
  rw [placeholder_two L n h1n h9n, placeholder_two X m h1m h9m, infix_len2] at h
  exact ⟨h.1, (digitChar_inj n m h1n h9n h1m h9m).mp h.2⟩

/-- Unpacking the clean-token test. -/
theorem cleanTok_spec (t : List Char) (h : cleanTok t = true) :
    t ≠ [] ∧ (∀ c ∈ t, c ≠ ' ') ∧ ∀ p ∈ cleanPats, ¬ p <:+: t := by
  rw [cleanTok] at h
  simp only [Bool.and_eq_true, List.all_eq_true] at h
  obtain ⟨⟨h1, h2⟩, h3⟩ := h
  refine ⟨?_, ?_, ?_⟩
  · intro he
    subst he
    simp at h1
  · intro c hc
    simpa using h2 c hc
  · intro p hp hocc
    have := h3 p hp
    rw [occursB] at this
    simp [hocc] at this

/-- Every in-range placeholder is among the clean patterns. -/
theorem placeholder_mem_cleanPats (L : Char)
    (hL : L = 'E' ∨ L = 'T' ∨ L = 'R') (n : Nat) (h1 : 1 ≤ n) (h9 : n ≤ 9) :
    placeholder L n ∈ cleanPats := by
  rcases hL with rfl | rfl | rfl <;> interval_cases n <;> decide

/-- No namespace-prefix core pattern occurs in a placeholder. -/
theorem corePat_not_infix_placeholder (p : List Char) (hp : p ∈ corePats)
    (X : Char) (hX : X = 'E' ∨ X = 'T' ∨ X = 'R') (n : Nat)
    (h1 : 1 ≤ n) (h9 : n ≤ 9) :
    ¬ p <:+: placeholder X n := by
  fin_cases hp <;> rcases hX with rfl | rfl | rfl <;> interval_cases n <;> decide

/-- Placeholders contain no space. -/
theorem placeholder_space_free (X : Char) (hX : X = 'E' ∨ X = 'T' ∨ X = 'R')
    (n : Nat) (h1 : 1 ≤ n) (h9 : n ≤ 9) : ' ' ∉ placeholder X n := by
  rcases hX with rfl | rfl | rfl <;> interval_cases n <;> decide

/-- One placeholder substitution pass of fill_query over a single
token (the loop body at utils.py lines 96-101 for one slot kind),
with an explicit starting index for the induction. -/
def substFoldFrom (L : Char) (k : Nat) (vals : List (List Char))
    (t : List Char) : List Char :=
  (List.enumFrom k vals).foldl
    (fun q p => pyReplace q (placeholder L (p.1 + 1)) p.2) t

/-- The substitution pass as it appears in fill_query (enumerate from
zero). -/
def substFold (L : Char) (vals : List (List Char)) (t : List Char) : List Char :=
  substFoldFrom L 0 vals t

/-- A token free of all the placeholders of a pass survives the pass
unchanged. -/
theorem substFoldFrom_no_occur (L : Char) (vals : List (List Char)) :
    ∀ (k : Nat) (t : List Char),
      (∀ n, k + 1 ≤ n → n ≤ k + vals.length → ¬ placeholder L n <:+: t) →
      substFoldFrom L k vals t = t := by
  induction vals with
  | nil => intro k t _; rfl
  | cons v vs ih =>
    intro k t h
    show substFoldFrom L (k + 1) vs (pyReplace t (placeholder L (k + 1)) v) = t
    rw [pyReplace_of_no_occurrence t _ v (h (k + 1) (le_refl _) (by simp))]
    exact ih (k + 1) t (fun n hn1 hn2 => h n (by omega) (by simp at hn2 ⊢; omega))

/-- A clean token survives a pass whose placeholder indices stay in
the single-digit range. -/
theorem substFoldFrom_clean (L : Char) (hL : L = 'E' ∨ L = 'T' ∨ L = 'R')
    (vals : List (List Char)) (k : Nat) (hk : k + vals.length ≤ 9)
    (t : List Char) (ht : cleanTok t = true) :
    substFoldFrom L k vals t = t :=
  substFoldFrom_no_occur L vals k t (fun n hn1 hn2 hocc =>
    (cleanTok_spec t ht).2.2 (placeholder L n)
      (placeholder_mem_cleanPats L hL n (by omega) (by omega)) hocc)

/-- Action of a substitution pass on a placeholder token: the matching
index is replaced by its identifier (which, being clean, survives the
rest of the pass); every other placeholder is untouched. -/
theorem substFoldFrom_placeholder (L : Char)
    (hL : L = 'E' ∨ L = 'T' ∨ L = 'R') (vals : List (List Char))
    (hclean : ∀ v ∈ vals, cleanTok v = true) :
    ∀ (k : Nat), k + vals.length ≤ 9 →
      ∀ (X : Char) (i : Nat), 1 ≤ i → i ≤ 9 →
        substFoldFrom L k vals (placeholder X i) =
          (if X = L ∧ k + 1 ≤ i ∧ i ≤ k + vals.length then
            vals.getD (i - 1 - k) []
          else placeholder X i) := by
  induction vals with
  | nil =>
    intro k _ X i h1 h9
    rw [if_neg (by rintro ⟨-, ha, hb⟩; simp at hb; omega)]
    rfl
  | cons v vs ih =>
    intro k hk X i h1 h9
    have hk1 : 1 ≤ k + 1 := by omega
    have hk9 : k + 1 ≤ 9 := by simp at hk; omega
    show substFoldFrom L (k + 1) vs
        (pyReplace (placeholder X i) (placeholder L (k + 1)) v) = _
    by_cases hXi : X = L ∧ i = k + 1
    · have hXL := hXi.1
      have hik := hXi.2
      rw [hXL, hik]
      rw [pyReplace_self _ v (by
        rw [placeholder_two L (k + 1) hk1 hk9]
        simp)]
      rw [substFoldFrom_clean L hL vs (k + 1) (by simp at hk ⊢; omega) v
        (hclean v (List.mem_cons_self _ _))]
      rw [if_pos ⟨rfl, le_refl _, by simp⟩]
      rw [show k + 1 - 1 - k = 0 by omega]
      rfl
    · have hnocc : ¬ placeholder L (k + 1) <:+: placeholder X i := by
        intro hocc
        have := placeholder_infix_placeholder L X (k + 1) i hk1 hk9 h1 h9 hocc
        exact hXi ⟨this.1.symm, this.2.symm⟩
      rw [pyReplace_of_no_occurrence _ _ _ hnocc]
      rw [ih (fun u hu => hclean u (List.mem_cons_of_mem _ hu)) (k + 1)
        (by simp at hk ⊢; omega) X i h1 h9]
      by_cases hXL : X = L
      · subst hXL
        by_cases hrange : k + 2 ≤ i ∧ i ≤ k + 1 + vs.length
        · rw [if_pos ⟨rfl, hrange.1, hrange.2⟩,
            if_pos ⟨rfl, by omega, by simp; omega⟩]
          rw [show i - 1 - k = (i - k - 2) + 1 by omega, List.getD_cons_succ]
          congr 1
          omega
        · rw [if_neg (by rintro ⟨-, ha, hb⟩; exact hrange ⟨ha, hb⟩),
            if_neg (by
              rintro ⟨-, ha, hb⟩
              simp at hb
              have hik : i ≠ k + 1 := fun he => hXi ⟨rfl, he⟩
              exact hrange ⟨by omega, by omega⟩)]
      · rw [if_neg (by rintro ⟨he, -, -⟩; exact hXL he),
          if_neg (by rintro ⟨he, -, -⟩; exact hXL he)]

/-- Reading a placeholder token by index substitution. -/
theorem substTok_placeholder (ev tv rv : List (List Char)) (X : Char) (i : Nat)
    (h1 : 1 ≤ i) (h9 : i ≤ 9) :
    substTok ev tv rv (placeholder X i) =
      (if X = 'E' then
        (if i ≤ ev.length then ev.getD (i - 1) (placeholder X i) else placeholder X i)
       else if X = 'T' then
        (if i ≤ tv.length then tv.getD (i - 1) (placeholder X i) else placeholder X i)
       else if X = 'R' then
        (if i ≤ rv.length then rv.getD (i - 1) (placeholder X i) else placeholder X i)
       else placeholder X i) := by
  have htn : (Char.ofNat (48 + i)).toNat - 48 = i := by interval_cases i <;> decide
  have hdig : (Char.ofNat (48 + i)).isDigit = true := by interval_cases i <;> decide
  rw [placeholder_two X i h1 h9]
  simp only [substTok, htn, hdig]
  rw [if_pos ⟨h1, h9, trivial⟩]

/-- A two-character token whose second character is a digit in the
placeholder range is a placeholder. -/
theorem two_char_digit_eq_placeholder (x d : Char)
    (hcond : 1 ≤ d.toNat - 48 ∧ d.toNat - 48 ≤ 9 ∧ d.isDigit) :
    [x, d] = placeholder x (d.toNat - 48) := by
  rw [placeholder_two x (d.toNat - 48) hcond.1 hcond.2.1]
  have h48 : 48 ≤ d.toNat := by
    have := hcond.2.2
    rw [Char.isDigit] at this
    simp only [Bool.and_eq_true, decide_eq_true_eq] at this
    exact this.1
  rw [show 48 + (d.toNat - 48) = d.toNat by omega, Char.ofNat_toNat]

/-- Index substitution leaves clean tokens unchanged. -/
theorem substTok_clean (ev tv rv : List (List Char)) (tok : List Char)
    (h : cleanTok tok = true) : substTok ev tv rv tok = tok := by
  match tok with
  | [] => rfl
  | [x] => rfl
  | x :: d :: c :: rest => rfl
  | [x, d] =>
    simp only [substTok]
    by_cases hcond : 1 ≤ d.toNat - 48 ∧ d.toNat - 48 ≤ 9 ∧ d.isDigit
    · by_cases hxE : x = 'E'
      · exact absurd (by rw [← two_char_digit_eq_placeholder x d hcond])
          ((cleanTok_spec _ h).2.2 (placeholder x (d.toNat - 48))
            (placeholder_mem_cleanPats x (Or.inl hxE) _ hcond.1 hcond.2.1))
      · by_cases hxT : x = 'T'
        · exact absurd (by rw [← two_char_digit_eq_placeholder x d hcond])
            ((cleanTok_spec _ h).2.2 (placeholder x (d.toNat - 48))
              (placeholder_mem_cleanPats x (Or.inr (Or.inl hxT)) _ hcond.1 hcond.2.1))
        · by_cases hxR : x = 'R'
          · exact absurd (by rw [← two_char_digit_eq_placeholder x d hcond])
              ((cleanTok_spec _ h).2.2 (placeholder x (d.toNat - 48))
                (placeholder_mem_cleanPats x (Or.inr (Or.inr hxR)) _ hcond.1 hcond.2.1))
          · rw [if_pos hcond, if_neg hxE, if_neg hxT, if_neg hxR]
    · rw [if_neg hcond]

/-- Python split never returns the empty list. -/
theorem pySplit_ne_nil (sep : List Char) (hsep : sep ≠ []) :
    ∀ s, pySplit sep s ≠ [] := by
  intro s
  induction s with
  | nil => rw [pySplit_nil sep hsep]; simp
  | cons c cs ih =>
    rw [pySplit_cons sep hsep c cs]
    by_cases h : sep <+: (c :: cs)
    · rw [if_pos h]; simp
    · rw [if_neg h]
      cases hps : pySplit sep cs with
      | nil => simp
      | cons p ps => simp

/-- Splitting a space-free string on the single space separator. -/
theorem pySplit_space_nosep (x : List Char) (hx : ∀ c ∈ x, c ≠ ' ') :
    pySplit [' '] x = [x] := by
  induction x with
  | nil => rw [pySplit_nil [' '] (by simp)]
  | cons c x' ih =>
    rw [pySplit_cons [' '] (by simp) c x']
    rw [if_neg (by
      intro hp
      rw [List.cons_prefix_cons] at hp
      exact hx c (List.mem_cons_self _ _) hp.1.symm)]
    rw [ih (fun u hu => hx u (List.mem_cons_of_mem _ hu))]

/-- Splitting past a single space separator after a space-free
field. -/
theorem pySplit_space_append (x b : List Char) (hx : ∀ c ∈ x, c ≠ ' ') :
    pySplit [' '] (x ++ ' ' :: b) = x :: pySplit [' '] b := by
  induction x with
  | nil =>
    rw [List.nil_append, pySplit_cons [' '] (by simp) ' ' b]
    rw [if_pos (List.cons_prefix_cons.mpr ⟨rfl, List.nil_prefix⟩)]
    rfl
  | cons c x' ih =>
    rw [List.cons_append, pySplit_cons [' '] (by simp) c (x' ++ ' ' :: b)]
    rw [if_neg (by
      intro hp
      rw [List.cons_prefix_cons] at hp
      exact hx c (List.mem_cons_self _ _) hp.1.symm)]
    rw [ih (fun u hu => hx u (List.mem_cons_of_mem _ hu))]

/-- The single-space split inverts the single-space join on space-free
tokens. -/
theorem pySplit_inner_join (tr : List (List Char))
    (htr : ∀ t ∈ tr, ∀ c ∈ t, c ≠ ' ') (hne : tr ≠ []) :
    pySplit [' '] (pyJoin [' '] tr) = tr := by
  induction tr with
  | nil => exact absurd rfl hne
  | cons x rest ih =>
    cases rest with
    | nil =>
      exact pySplit_space_nosep x (htr x (List.mem_cons_self _ _))
    | cons y rest2 =>
      have hstep : pyJoin [' '] (x :: y :: rest2) =
          x ++ ' ' :: pyJoin [' '] (y :: rest2) := by
        show x ++ [' '] ++ pyJoin [' '] (y :: rest2) = _
        simp
      rw [hstep, pySplit_space_append x _ (htr x (List.mem_cons_self _ _)),
        ih (fun t ht c hc => htr t (List.mem_cons_of_mem _ ht) c hc) (by simp)]

/-- A space-free string does not split on the double-space
separator. -/
theorem pySplit2_nospace (x : List Char) (hx : ∀ c ∈ x, c ≠ ' ') :
    pySplit [' ', ' '] x = [x] := by
  induction x with
  | nil => rw [pySplit_nil [' ', ' '] (by simp)]
  | cons c x' ih =>
    rw [pySplit_cons [' ', ' '] (by simp) c x']
    rw [if_neg (by
      intro hp
      rw [List.cons_prefix_cons] at hp
      exact hx c (List.mem_cons_self _ _) hp.1.symm)]
    rw [ih (fun u hu => hx u (List.mem_cons_of_mem _ hu))]

/-- A space-free field followed by the double-space separator splits
off. -/
theorem pySplit2_term (x b : List Char) (hx : ∀ c ∈ x, c ≠ ' ') :
    pySplit [' ', ' '] (x ++ ' ' :: ' ' :: b) = x :: pySplit [' ', ' '] b := by
  induction x with
  | nil =>
    rw [List.nil_append, pySplit_cons [' ', ' '] (by simp) ' ' (' ' :: b)]
    rw [if_pos (List.cons_prefix_cons.mpr
      ⟨rfl, List.cons_prefix_cons.mpr ⟨rfl, List.nil_prefix⟩⟩)]
    rfl
  | cons c x' ih =>
    rw [List.cons_append, pySplit_cons [' ', ' '] (by simp) c (x' ++ ' ' :: ' ' :: b)]
    rw [if_neg (by
      intro hp
      rw [List.cons_prefix_cons] at hp
      exact hx c (List.mem_cons_self _ _) hp.1.symm)]
    rw [ih (fun u hu => hx u (List.mem_cons_of_mem _ hu))]

/-- Scanning over a space-free field and a single space when the next
character is not a space: the double-space separator cannot match, so
the field and the space are absorbed into the first piece of the rest
of the scan. -/
theorem pySplit2_skip (x : List Char) (hx : ∀ c ∈ x, c ≠ ' ')
    (rest : List Char) (hhead : ∀ c, rest.head? = some c → c ≠ ' ') :
    pySplit [' ', ' '] (x ++ ' ' :: rest) =
      (match pySplit [' ', ' '] rest with
       | [] => [x ++ [' ']]
       | p0 :: ps => (x ++ ' ' :: p0) :: ps) := by
  induction x with
  | nil =>
    rw [List.nil_append, pySplit_cons [' ', ' '] (by simp) ' ' rest]
    rw [if_neg (by
      intro hp
      rw [List.cons_prefix_cons] at hp
      cases rest with
      | nil => exact absurd hp.2 (by simp)
      | cons r rs =>
        rw [List.cons_prefix_cons] at hp
        exact hhead r rfl hp.2.1.symm)]
    cases hps : pySplit [' ', ' '] rest with
    | nil => exact absurd hps (pySplit_ne_nil [' ', ' '] (by simp) rest)
    | cons p0 ps => rfl
  | cons c x' ih =>
    rw [List.cons_append, pySplit_cons [' ', ' '] (by simp) c (x' ++ ' ' :: rest)]
    rw [if_neg (by
      intro hp
      rw [List.cons_prefix_cons] at hp
      exact hx c (List.mem_cons_self _ _) hp.1.symm)]
    rw [ih (fun u hu => hx u (List.mem_cons_of_mem _ hu))]
    cases hps : pySplit [' ', ' '] rest with
    | nil => exact absurd hps (pySplit_ne_nil [' ', ' '] (by simp) rest)
    | cons p0 ps => rfl

/-- The head character of a single-space join of non-empty space-free
tokens is the head of the first token, hence not a space. -/
theorem pyJoin_head_not_space (y : List Char) (tr' : List (List Char))
    (hy : y ≠ []) (hyc : ∀ c ∈ y, c ≠ ' ') :
    ∀ c, (pyJoin [' '] (y :: tr')).head? = some c → c ≠ ' ' := by
  intro c hc
  cases y with
  | nil => exact absurd rfl hy
  | cons c0 y' =>
    have : (pyJoin [' '] ((c0 :: y') :: tr')).head? = some c0 := by
      cases tr' with
      | nil => rfl
      | cons z tr2 => rfl
    rw [this] at hc
    injection hc with hc
    subst hc
    exact hyc c0 (List.mem_cons_self _ _)

/-- A full piece (single-space join of non-empty space-free tokens)
followed by the double-space separator splits off in one piece. -/
theorem pySplit2_piece (tr : List (List Char))
    (h : ∀ t ∈ tr, t ≠ [] ∧ ∀ c ∈ t, c ≠ ' ') (htrne : tr ≠ [])
    (b : List Char) :
    pySplit [' ', ' '] (pyJoin [' '] tr ++ ' ' :: ' ' :: b) =
      pyJoin [' '] tr :: pySplit [' ', ' '] b := by
  induction tr with
  | nil => exact absurd rfl htrne
  | cons x rest ih =>
    cases rest with
    | nil =>
      exact pySplit2_term x b (h x (List.mem_cons_self _ _)).2
    | cons y rest2 =>
      have hstep : pyJoin [' '] (x :: y :: rest2) ++ ' ' :: ' ' :: b =
          x ++ ' ' :: (pyJoin [' '] (y :: rest2) ++ ' ' :: ' ' :: b) := by
        show (x ++ [' '] ++ pyJoin [' '] (y :: rest2)) ++ ' ' :: ' ' :: b = _
        simp
      rw [hstep]
      rw [pySplit2_skip x (h x (List.mem_cons_self _ _)).2 _ (by
        intro c hc
        have hy := h y (List.mem_cons_of_mem _ (List.mem_cons_self _ _))
        cases hj : pyJoin [' '] (y :: rest2) with
        | nil =>
          rw [hj] at hc
          cases y with
          | nil => exact absurd rfl hy.1
          | cons c0 y' =>
            exfalso
            cases rest2 with
            | nil => simp [pyJoin] at hj
            | cons z r2 => simp [pyJoin] at hj
        | cons j0 js =>
          rw [hj] at hc
          have := pyJoin_head_not_space y rest2 hy.1 hy.2 c
          rw [hj] at this
          exact this hc)]
      rw [ih (fun t ht => h t (List.mem_cons_of_mem _ ht)) (by simp)]
      cases hps : pySplit [' ', ' '] b with
      | nil => exact absurd hps (pySplit_ne_nil [' ', ' '] (by simp) b)
      | cons p0 ps =>
        have hstep2 : pyJoin [' '] (x :: y :: rest2) =
            x ++ ' ' :: pyJoin [' '] (y :: rest2) := by
          show x ++ [' '] ++ pyJoin [' '] (y :: rest2) = _
          simp
        rw [hstep2]

/-- A lone piece does not split on the double-space separator. -/
theorem pySplit2_single (tr : List (List Char))
    (h : ∀ t ∈ tr, t ≠ [] ∧ ∀ c ∈ t, c ≠ ' ') :
    pySplit [' ', ' '] (pyJoin [' '] tr) = [pyJoin [' '] tr] := by
  induction tr with
  | nil =>
    rw [show pyJoin [' '] ([] : List (List Char)) = [] from rfl,
      pySplit_nil [' ', ' '] (by simp)]
  | cons x rest ih =>
    cases rest with
    | nil => exact pySplit2_nospace x (h x (List.mem_cons_self _ _)).2
    | cons y rest2 =>
      have hstep : pyJoin [' '] (x :: y :: rest2) =
          x ++ ' ' :: pyJoin [' '] (y :: rest2) := by
        show x ++ [' '] ++ pyJoin [' '] (y :: rest2) = _
        simp
      rw [hstep]
      rw [pySplit2_skip x (h x (List.mem_cons_self _ _)).2 _ (by
        intro c hc
        have hy := h y (List.mem_cons_of_mem _ (List.mem_cons_self _ _))
        exact pyJoin_head_not_space y rest2 hy.1 hy.2 c hc)]
      rw [ih (fun t ht => h t (List.mem_cons_of_mem _ ht))]

/-- The double-space split recovers the pieces of the two-level
join. -/
theorem pySplit2_join2 :
    ∀ Q : List (List (List Char)), Q ≠ [] →
      (∀ tr ∈ Q, tr ≠ [] ∧ ∀ t ∈ tr, t ≠ [] ∧ ∀ c ∈ t, c ≠ ' ') →
      pySplit [' ', ' '] (join2 Q) = Q.map (pyJoin [' ']) := by
  intro Q
  induction Q with
  | nil => intro h; exact absurd rfl h
  | cons tr rest ih =>
    intro _ hQ
    cases rest with
    | nil =>
      show pySplit [' ', ' '] (pyJoin [' '] tr) = [pyJoin [' '] tr]
      exact pySplit2_single tr (hQ tr (List.mem_cons_self _ _)).2
    | cons tr2 rest2 =>
      have hstep : join2 (tr :: tr2 :: rest2) =
          pyJoin [' '] tr ++ ' ' :: ' ' :: join2 (tr2 :: rest2) := by
        show pyJoin [' '] tr ++ [' ', ' '] ++ _ = _
        simp [join2]
      rw [hstep,
        pySplit2_piece tr (fun t ht => (hQ tr (List.mem_cons_self _ _)).2 t ht)
          (hQ tr (List.mem_cons_self _ _)).1 _,
        ih (by simp) (fun u hu => hQ u (List.mem_cons_of_mem _ hu))]
      rfl

/-- The two splits at the end of fill_query invert the two joins at
its start, for grids of non-empty space-free tokens. -/
theorem split2_join2 (Q : List (List (List Char)))
    (hQ : ∀ tr ∈ Q, tr ≠ [] ∧ ∀ t ∈ tr, t ≠ [] ∧ ∀ c ∈ t, c ≠ ' ')
    (hQne : Q ≠ []) :
    (pySplit [' ', ' '] (join2 Q)).map (pySplit [' ']) = Q := by
  rw [pySplit2_join2 Q hQne hQ, List.map_map]
  calc Q.map (pySplit [' '] ∘ pyJoin [' '])
      = Q.map (fun tr => tr) := by
        apply List.map_congr_left
        intro tr htr
        exact pySplit_inner_join tr (fun t ht c hc => (hQ tr htr).2 t ht |>.2 c hc)
          (hQ tr htr).1
    _ = Q := List.map_id' Q

/-- A clean-or-placeholder token contains no namespace-prefix core
pattern. -/
theorem cp_no_core (t : List Char) (ht : cpTok t) (p : List Char)
    (hp : p ∈ corePats) : ¬ p <:+: t := by
  rcases ht with hclean | ⟨X, i, hX, h1, h9, rfl⟩
  · exact (cleanTok_spec t hclean).2.2 p (by
      rw [cleanPats]
      exact List.mem_append_left _ hp)
  · exact corePat_not_infix_placeholder p hp X hX i h1 h9

/-- The namespace-prefix fold of fill_query leaves the joined string
of a clean-or-placeholder grid unchanged: none of the table patterns
can occur. -/
theorem prefix_fold_join2_id (Q : List (List (List Char)))
    (hQ : ∀ tr ∈ Q, ∀ t ∈ tr, cpTok t) :
    map_query_str_to_wikidata.foldl (fun q p => pyReplace q p.1 p.2) (join2 Q) =
      join2 Q := by
  have step : ∀ p : List Char, p ∈ corePats → ' ' ∉ p → ∀ rep : List Char,
      pyReplace (join2 Q) p rep = join2 Q := fun p hp hsp rep =>
    pyReplace_join2_id p rep hsp Q
      (fun tr htr t ht => cp_no_core t (hQ tr htr t ht) p hp)
  show pyReplace (pyReplace (pyReplace (pyReplace (pyReplace (pyReplace
      (pyReplace (join2 Q) "P0".data "http://schema.org/description".data)
        "wd:".data "http://www.wikidata.org/entity/".data)
        "wdt:".data "http://www.wikidata.org/prop/direct/".data)
        " p:".data " http://www.wikidata.org/prop/".data)
        "wdt:".data "http://www.wikidata.org/prop/direct/".data)
        "ps:".data "http://www.wikidata.org/prop/statement/".data)
        "pq:".data "http://www.wikidata.org/prop/qualifier/".data = join2 Q
  rw [step "P0".data (by decide) (by decide) _,
    step "wd:".data (by decide) (by decide) _,
    step "wdt:".data (by decide) (by decide) _,
    pyReplace_join2_spaced_id _ Q
      (fun tr htr t ht => cp_no_core t (hQ tr htr t ht) "p:".data (by decide)),
    step "wdt:".data (by decide) (by decide) _,
    step "ps:".data (by decide) (by decide) _,
    step "pq:".data (by decide) (by decide) _]

/-- A substitution pass distributes over the two-level join. -/
theorem substFoldFrom_join2 (L : Char) (hL : L = 'E' ∨ L = 'T' ∨ L = 'R')
    (vals : List (List Char)) :
    ∀ (k : Nat), k + vals.length ≤ 9 → ∀ Q : List (List (List Char)),
      substFoldFrom L k vals (join2 Q) =
        join2 (gridMap (substFoldFrom L k vals) Q) := by
  induction vals with
  | nil =>
    intro k hk Q
    show join2 Q = join2 (gridMap (substFoldFrom L k []) Q)
    congr 1
    calc Q = Q.map (fun tr => tr) := (List.map_id' Q).symm
      _ = gridMap (substFoldFrom L k []) Q := by
        apply List.map_congr_left
        intro tr _
        calc tr = tr.map (fun t => t) := (List.map_id' tr).symm
          _ = tr.map (substFoldFrom L k []) := by
            apply List.map_congr_left
            intro t _
            rfl
  | cons v vs ih =>
    intro k hk Q
    have hk9 : k + 1 ≤ 9 := by simp at hk; omega
    show substFoldFrom L (k + 1) vs
        (pyReplace (join2 Q) (placeholder L (k + 1)) v) = _
    rw [pyReplace_join2 _ v
      (placeholder_space_free L hL (k + 1) (by omega) hk9) Q]
    rw [ih (k + 1) (by simp at hk ⊢; omega)
      (gridMap (fun t => pyReplace t (placeholder L (k + 1)) v) Q)]
    rw [gridMap_gridMap]
    rfl

/-- On a clean-or-placeholder token, the three substitution passes of
fill_query compute exactly the index-based substitution. -/
theorem token_chain_cp (ev tv rv : List (List Char))
    (hev : ev.length ≤ 9) (htv : tv.length ≤ 9) (hrv : rv.length ≤ 9)
    (hce : ∀ v ∈ ev, cleanTok v = true) (hct : ∀ v ∈ tv, cleanTok v = true)
    (hcr : ∀ v ∈ rv, cleanTok v = true)
    (tok : List Char) (htok : cpTok tok) :
    substFold 'R' rv (substFold 'T' tv (substFold 'E' ev tok)) =
      substTok ev tv rv tok := by
  simp only [substFold]
  rcases htok with hclean | ⟨X, i, hX, h1, h9, rfl⟩
  · rw [substFoldFrom_clean 'E' (Or.inl rfl) ev 0 (by omega) tok hclean,
      substFoldFrom_clean 'T' (Or.inr (Or.inl rfl)) tv 0 (by omega) tok hclean,
      substFoldFrom_clean 'R' (Or.inr (Or.inr rfl)) rv 0 (by omega) tok hclean,
      substTok_clean ev tv rv tok hclean]
  · rw [substTok_placeholder ev tv rv X i h1 h9]
    rw [substFoldFrom_placeholder 'E' (Or.inl rfl) ev hce 0 (by omega) X i h1 h9]
    rcases hX with rfl | rfl | rfl
    · by_cases hile : i ≤ ev.length
      · rw [if_pos ⟨rfl, by omega, by omega⟩]
        have hlt : i - 1 < ev.length := by omega
        have hmem : ev.getD (i - 1 - 0) [] ∈ ev := by
          rw [show i - 1 - 0 = i - 1 by omega, List.getD_eq_getElem ev [] hlt]
          exact List.getElem_mem hlt
        have hcv := hce _ hmem
        rw [substFoldFrom_clean 'T' (Or.inr (Or.inl rfl)) tv 0 (by omega) _ hcv,
          substFoldFrom_clean 'R' (Or.inr (Or.inr rfl)) rv 0 (by omega) _ hcv]
        rw [if_pos rfl, if_pos hile]
        rw [show i - 1 - 0 = i - 1 by omega,
          List.getD_eq_getElem ev [] hlt, List.getD_eq_getElem ev _ hlt]
      · rw [if_neg (by rintro ⟨-, -, hc⟩; simp at hc; omega)]
        rw [substFoldFrom_placeholder 'T' (Or.inr (Or.inl rfl)) tv hct 0
            (by omega) 'E' i h1 h9,
          if_neg (by rintro ⟨hc, -, -⟩; exact absurd hc (by decide))]
        rw [substFoldFrom_placeholder 'R' (Or.inr (Or.inr rfl)) rv hcr 0
            (by omega) 'E' i h1 h9,
          if_neg (by rintro ⟨hc, -, -⟩; exact absurd hc (by decide))]
        rw [if_pos rfl, if_neg hile]
    · rw [if_neg (by rintro ⟨hc, -, -⟩; exact absurd hc (by decide))]
      rw [substFoldFrom_placeholder 'T' (Or.inr (Or.inl rfl)) tv hct 0
          (by omega) 'T' i h1 h9]
      by_cases hile : i ≤ tv.length
      · rw [if_pos ⟨rfl, by omega, by omega⟩]
        have hlt : i - 1 < tv.length := by omega
        have hmem : tv.getD (i - 1 - 0) [] ∈ tv := by
          rw [show i - 1 - 0 = i - 1 by omega, List.getD_eq_getElem tv [] hlt]
          exact List.getElem_mem hlt
        have hcv := hct _ hmem
        rw [substFoldFrom_clean 'R' (Or.inr (Or.inr rfl)) rv 0 (by omega) _ hcv]
        rw [if_neg (by decide), if_pos rfl, if_pos hile]
        rw [show i - 1 - 0 = i - 1 by omega,
          List.getD_eq_getElem tv [] hlt, List.getD_eq_getElem tv _ hlt]
      · rw [if_neg (by rintro ⟨-, -, hc⟩; simp at hc; omega)]
        rw [substFoldFrom_placeholder 'R' (Or.inr (Or.inr rfl)) rv hcr 0
            (by omega) 'T' i h1 h9,
          if_neg (by rintro ⟨hc, -, -⟩; exact absurd hc (by decide))]
        rw [if_neg (by decide), if_pos rfl, if_neg hile]
    · rw [if_neg (by rintro ⟨hc, -, -⟩; exact absurd hc (by decide))]
      rw [substFoldFrom_placeholder 'T' (Or.inr (Or.inl rfl)) tv hct 0
          (by omega) 'R' i h1 h9,
        if_neg (by rintro ⟨hc, -, -⟩; exact absurd hc (by decide))]
      rw [substFoldFrom_placeholder 'R' (Or.inr (Or.inr rfl)) rv hcr 0
          (by omega) 'R' i h1 h9]
      by_cases hile : i ≤ rv.length
      · rw [if_pos ⟨rfl, by omega, by omega⟩]
        rw [if_neg (by decide), if_neg (by decide), if_pos rfl, if_pos hile]
        have hlt : i - 1 < rv.length := by omega
        rw [show i - 1 - 0 = i - 1 by omega,
          List.getD_eq_getElem rv [] hlt, List.getD_eq_getElem rv _ hlt]
      · rw [if_neg (by rintro ⟨-, -, hc⟩; simp at hc; omega)]
        rw [if_neg (by decide), if_neg (by decide), if_pos rfl, if_neg hile]

/-- The index substitution of a clean-or-placeholder token is
non-empty and space-free (hypotheses: clean identifier lists). -/
theorem substTok_good (ev tv rv : List (List Char))
    (hce : ∀ v ∈ ev, cleanTok v = true) (hct : ∀ v ∈ tv, cleanTok v = true)
    (hcr : ∀ v ∈ rv, cleanTok v = true)
    (tok : List Char) (htok : cpTok tok) :
    substTok ev tv rv tok ≠ [] ∧ ∀ c ∈ substTok ev tv rv tok, c ≠ ' ' := by
  rcases htok with hclean | ⟨X, i, hX, h1, h9, rfl⟩
  · rw [substTok_clean _ _ _ _ hclean]
    exact ⟨(cleanTok_spec _ hclean).1, (cleanTok_spec _ hclean).2.1⟩
  · rw [substTok_placeholder ev tv rv X i h1 h9]
    have hph : (placeholder X i ≠ []) ∧ ∀ c ∈ placeholder X i, c ≠ ' ' := by
      refine ⟨by rw [placeholder]; simp, ?_⟩
      intro c hc hsp
      exact placeholder_space_free X hX i h1 h9 (hsp ▸ hc)
    have hval : ∀ (vals : List (List Char)), (∀ v ∈ vals, cleanTok v = true) →
        i ≤ vals.length →
        (vals.getD (i - 1) (placeholder X i) ≠ [] ∧
          ∀ c ∈ vals.getD (i - 1) (placeholder X i), c ≠ ' ') := by
      intro vals hv hile
      have hlt : i - 1 < vals.length := by omega
      rw [List.getD_eq_getElem vals _ hlt]
      have hm := hv _ (List.getElem_mem hlt)
      exact ⟨(cleanTok_spec _ hm).1, (cleanTok_spec _ hm).2.1⟩
    split_ifs with hxe hre hxt hrt hxr hrr
    · exact hval ev hce hre
    · exact hph
    · exact hval tv hct hrt
    · exact hph
    · exact hval rv hcr hrr
    · exact hph
    · exact hph

/-- C5 counterexample: placeholder substitution by plain string
replace is NOT injective with respect to slot index once a template has
ten or more slots of one kind, nor when an identifier contains a
placeholder substring.  First fact: with entity slots E1 and E10, the
pass for E1 rewrites the prefix of E10, so the slot-10 position ends
up holding the slot-1 identifier with a stray zero ("A0"), not the
slot-10 identifier "K".  Second fact: an identifier equal to "E2"
substituted for E1 is captured by the later E2 pass, so both slots end
up holding "A". -/
theorem fill_query_collision_counterexample :
    (fill_query [["E1".data, "E10".data, "?x".data]]
        (["A".data, "B".data, "C".data, "D".data, "F".data,
          "G".data, "H".data, "I".data, "J".data, "K".data], 0)
        ([], 0) ([], 0) =
      [["A".data, "A0".data, "?x".data]] ∧
    "A0".data ≠ "K".data) ∧
    (fill_query [["E1".data, "E2".data, "?x".data]]
        (["E2".data, "A".data], 0) ([], 0) ([], 0) =
      [["A".data, "A".data, "?x".data]] ∧
    "A".data ≠ "E2".data) :=
  ⟨⟨rfl, by decide⟩, ⟨rfl, by decide⟩⟩

/-- C5 (amended): fill_query equals index-based placeholder
substitution — filling a template and re-reading the placeholder
positions yields exactly the original combination values — provided
every slot kind has at most nine slots (single-digit placeholder
indices), every template token is either a whole-token placeholder or
a clean token, and every identifier is clean (non-empty, space-free,
free of placeholder substrings and of the namespace-prefix patterns).
The combination pairs carry the make_combs aggregate rank, which
fill_query discards. -/
theorem fill_query_roundtrip
    (Q : List (List (List Char))) (hQne : Q ≠ [])
    (hQ : ∀ tr ∈ Q, tr ≠ [] ∧ ∀ tok ∈ tr, cpTok tok)
    (ev tv rv : List (List Char)) (ne nt nr : Nat)
    (hev : ev.length ≤ 9) (htv : tv.length ≤ 9) (hrv : rv.length ≤ 9)
    (hce : ∀ v ∈ ev, cleanTok v = true) (hct : ∀ v ∈ tv, cleanTok v = true)
    (hcr : ∀ v ∈ rv, cleanTok v = true) :
    fill_query Q (ev, ne) (tv, nt) (rv, nr) = gridMap (substTok ev tv rv) Q := by
  show (pySplit "  ".data
      (substFoldFrom 'R' 0 rv (substFoldFrom 'T' 0 tv (substFoldFrom 'E' 0 ev
        (map_query_str_to_wikidata.foldl (fun q p => pyReplace q p.1 p.2)
          (pyJoin "  ".data (Q.map (pyJoin " ".data)))))))).map
      (pySplit " ".data) = _
  rw [show "  ".data = [' ', ' '] from rfl, show " ".data = [' '] from rfl]
  rw [show pyJoin [' ', ' '] (Q.map (pyJoin [' '])) = join2 Q from rfl]
  rw [prefix_fold_join2_id Q (fun tr htr t ht => (hQ tr htr).2 t ht)]
  rw [substFoldFrom_join2 'E' (Or.inl rfl) ev 0 (by omega) Q,
    substFoldFrom_join2 'T' (Or.inr (Or.inl rfl)) tv 0 (by omega) _,
    substFoldFrom_join2 'R' (Or.inr (Or.inr rfl)) rv 0 (by omega) _]
  have hGall : gridMap (substFoldFrom 'R' 0 rv)
      (gridMap (substFoldFrom 'T' 0 tv) (gridMap (substFoldFrom 'E' 0 ev) Q)) =
      gridMap (substTok ev tv rv) Q := by
    rw [gridMap_gridMap, gridMap_gridMap, gridMap, gridMap]
    apply List.map_congr_left
    intro tr htr
    apply List.map_congr_left
    intro t ht
    exact token_chain_cp ev tv rv hev htv hrv hce hct hcr t ((hQ tr htr).2 t ht)
  rw [hGall]
  apply split2_join2
  · intro tr' htr'
    rw [gridMap, List.mem_map] at htr'
    obtain ⟨tr, htr, rfl⟩ := htr'
    constructor
    · simp [(hQ tr htr).1]
    · intro t' ht'
      rw [List.mem_map] at ht'
      obtain ⟨t, ht, rfl⟩ := ht'
      have hg := substTok_good ev tv rv hce hct hcr t ((hQ tr htr).2 t ht)
      exact ⟨hg.1, hg.2⟩
  · simp [gridMap, hQne]

example :
    fill_query [["?ent".data, "E1".data, "T1".data]]
        (["Q1".data], 0) (["Q5".data], 0) ([], 0) =
      [["?ent".data, "Q1".data, "Q5".data]] := rfl

theorem fill_query_roundtrip_witness :
    fill_query [["?ent".data, "E1".data, "T1".data]]
        (["Q1".data], 0) (["Q5".data], 0) ([], 0) =
      gridMap (substTok ["Q1".data] ["Q5".data] [])
        [["?ent".data, "E1".data, "T1".data]] :=
  fill_query_roundtrip _ (by decide)
    (by
      intro tr htr
      rw [List.mem_singleton] at htr
      subst htr
      refine ⟨by decide, ?_⟩
      intro tok htok
      rw [List.mem_cons, List.mem_cons, List.mem_singleton] at htok
      rcases htok with rfl | rfl | rfl
      · exact Or.inl (by decide)
      · exact Or.inr ⟨'E', 1, Or.inl rfl, by omega, by omega, by decide⟩
      · exact Or.inr ⟨'T', 1, Or.inr (Or.inl rfl), by omega, by omega, by decide⟩)
    ["Q1".data] ["Q5".data] [] 0 0 0 (by decide) (by decide) (by decide)
    (by
      intro v hv
      rw [List.mem_singleton] at hv
      subst hv
      decide)
    (by
      intro v hv
      rw [List.mem_singleton] at hv
      subst hv
      decide)
    (by
      intro v hv
      simp at hv)
